import Mathlib

/-!
Verification of the cinema-data scraper pipeline (`src/scraper.py`,
`src/fixer.py`).

The development embeds, faithfully to the Python source:

* the JSON value universe manipulated by the scripts (`Json`), with numbers
  restricted to integers, matching the INTEGER-typed numeric fields of the
  schema `MOVIE_SCHEMA` (runtime in minutes);
* Python's `json.dump(value, f, indent=2, ensure_ascii=False)` as the
  character-level serializer `dumps`, and `json.loads` as the parser `loads`
  (strict mode: raw control characters in strings are rejected, duplicate
  object keys follow dict insertion semantics: value replaced, position of
  the first occurrence kept);
* the declarative extraction schema `MOVIE_SCHEMA` as the conformance
  predicate `conformsToMovieSchema`;
* `fetch_and_process_movies` from `src/scraper.py` (API-key precondition,
  last-known-good load, fetch, the MAX_RETRIES-bounded self-correction loop,
  the success write, and the critical-failure restore path);
* `fix_broken_json` from `src/fixer.py` (trigger-file check, its own retry
  loop, and its writes).

The generative model is an external nondeterministic text source; it is
embedded as an oracle `gen : Nat → ApiResult` indexed by the attempt number,
so two calls of the same run may yield different texts, exactly as the
surrounding loop must tolerate.  The filesystem is the record `FS` of the
three filenames the two scripts touch.
-/

mutual

/-- A JSON value as manipulated by `json.loads` / `json.dump` in the
scripts.  Numbers are integers: every numeric field of `MOVIE_SCHEMA` is
typed `INTEGER`. -/
inductive Json where
  | null : Json
  | bool (b : Bool) : Json
  | num (n : Int) : Json
  | str (s : String) : Json
  | arr (xs : JsonList) : Json
  | obj (ps : JsonObj) : Json

/-- A JSON array, as a list of values. -/
inductive JsonList where
  | nil : JsonList
  | cons (v : Json) (vs : JsonList) : JsonList

/-- A JSON object: key/value pairs in insertion order (Python dicts
preserve insertion order). -/
inductive JsonObj where
  | nil : JsonObj
  | cons (k : String) (v : Json) (ps : JsonObj) : JsonObj

end

deriving instance DecidableEq for Json

/-- Python truthiness of a parsed JSON value, as used by
`if last_known_good_data:` on line 140 of `src/scraper.py`:
`None`, `False`, `0`, `""`, `[]` and an empty dict are falsy. -/
def Json.truthy : Json → Bool
  | .null => false
  | .bool b => b
  | .num n => n != 0
  | .str s => s != ""
  | .arr .nil => false
  | .arr (.cons _ _) => true
  | .obj .nil => false
  | .obj (.cons _ _ _) => true

/-! ## Serializer: `json.dump(value, f, indent=2, ensure_ascii=False)` -/

/-- Lower-case hexadecimal digit, as used by Python's `'\u%04x'` escape. -/
def hexDigit (d : Nat) : Char :=
  if d < 10 then Char.ofNat (48 + d) else Char.ofNat (87 + d)

/-- Escape of a single character inside a JSON string, per Python's
`ESCAPE_DCT` with `ensure_ascii=False`: quote, backslash and the named
control escapes get two-character forms, the remaining control characters
get `\u00xx`, everything else is emitted verbatim. -/
def escChar (c : Char) : List Char :=
  if c = '"' then ['\\', '"']
  else if c = '\\' then ['\\', '\\']
  else if c.toNat = 8 then ['\\', 'b']
  else if c.toNat = 12 then ['\\', 'f']
  else if c.toNat = 10 then ['\\', 'n']
  else if c.toNat = 13 then ['\\', 'r']
  else if c.toNat = 9 then ['\\', 't']
  else if c.toNat < 32 then
    ['\\', 'u', '0', '0', hexDigit (c.toNat / 16), hexDigit (c.toNat % 16)]
  else [c]

/-- Escape every character of a string body. -/
def escChars : List Char → List Char
  | [] => []
  | c :: cs => escChar c ++ escChars cs

/-- Decimal digits with explicit fuel (the fuel only forces structural
recursion; `natDigits` supplies enough for any number). -/
def natDigitsAux : Nat → Nat → List Char
  | 0, _ => []
  | fuel + 1, n =>
      if n < 10 then [Char.ofNat (48 + n)]
      else natDigitsAux fuel (n / 10) ++ [Char.ofNat (48 + n % 10)]

/-- Decimal digits of a natural number, most significant first
(Python `int.__repr__`). -/
def natDigits (n : Nat) : List Char := natDigitsAux (n + 1) n

/-- The fuel does not matter as long as it exceeds the number. -/
theorem natDigitsAux_irrel : ∀ f1 f2 n, n < f1 → n < f2 →
    natDigitsAux f1 n = natDigitsAux f2 n := by
  intro f1
  induction f1 with
  | zero => intro f2 n h1; omega
  | succ f1 ih =>
      intro f2 n h1 h2
      obtain ⟨f2', rfl⟩ : ∃ f, f2 = f + 1 := ⟨f2 - 1, by omega⟩
      rw [natDigitsAux, natDigitsAux]
      by_cases h : n < 10
      · rw [if_pos h, if_pos h]
      · rw [if_neg h, if_neg h, ih f2' (n / 10) (by omega) (by omega)]

/-- The recursive unfolding of `natDigits`. -/
theorem natDigits_unfold (n : Nat) :
    natDigits n = if n < 10 then [Char.ofNat (48 + n)]
      else natDigits (n / 10) ++ [Char.ofNat (48 + n % 10)] := by
  rw [natDigits, natDigitsAux]
  by_cases h : n < 10
  · rw [if_pos h, if_pos h]
  · rw [if_neg h, if_neg h, natDigits,
      natDigitsAux_irrel n (n / 10 + 1) (n / 10) (by omega) (by omega)]

/-- Decimal representation of an integer (Python `int.__repr__`). -/
def serNum : Int → List Char
  | .ofNat m => natDigits m
  | .negSucc m => '-' :: natDigits (m + 1)

/-- The indentation emitted at nesting depth `k` by `json.dump` with
`indent=2`. -/
def indChars (k : Nat) : List Char := List.replicate (2 * k) ' '

/-- One `"key": value` member, given the serialized value. -/
def serMember (key : String) (sv : List Char) : List Char :=
  '"' :: (escChars key.data ++ '"' :: ':' :: ' ' :: sv)

mutual

/-- Characters written by `json.dump(v, f, indent=2, ensure_ascii=False)`
for value `v` at nesting depth `k`.  With an indent, Python uses item
separator `","` followed by a newline and indentation, and key separator
`": "`; empty containers print as `[]` and braces with nothing between. -/
def serValue : Json → Nat → List Char
  | .null, _ => ['n', 'u', 'l', 'l']
  | .bool true, _ => ['t', 'r', 'u', 'e']
  | .bool false, _ => ['f', 'a', 'l', 's', 'e']
  | .num n, _ => serNum n
  | .str s, _ => '"' :: (escChars s.data ++ ['"'])
  | .arr .nil, _ => ['[', ']']
  | .arr (.cons v vs), k =>
      '[' :: '\n' :: (indChars (k + 1) ++ serValue v (k + 1) ++
        serArrTail vs (k + 1) ++ '\n' :: (indChars k ++ [']']))
  | .obj .nil, _ => ['\x7b', '\x7d']
  | .obj (.cons key v ps), k =>
      '\x7b' :: '\n' :: (indChars (k + 1) ++ serMember key (serValue v (k + 1)) ++
        serObjTail ps (k + 1) ++ '\n' :: (indChars k ++ ['\x7d']))
  termination_by structural v => v

/-- The remaining array items, each preceded by `",\n"` and indentation. -/
def serArrTail : JsonList → Nat → List Char
  | .nil, _ => []
  | .cons v vs, k => ',' :: '\n' :: (indChars k ++ serValue v k ++ serArrTail vs k)
  termination_by structural vs => vs

/-- The remaining object members, each preceded by `",\n"` and
indentation. -/
def serObjTail : JsonObj → Nat → List Char
  | .nil, _ => []
  | .cons key v ps, k =>
      ',' :: '\n' :: (indChars k ++ serMember key (serValue v k) ++ serObjTail ps k)
  termination_by structural ps => ps

end

/-- The exact file content produced by the success-path write
`json.dump(parsed_json, f, indent=2, ensure_ascii=False)`
(lines 113-114 of `src/scraper.py`, lines 75-76 of `src/fixer.py`). -/
def dumps (v : Json) : String := String.mk (serValue v 0)

/-! ## Parser: `json.loads` -/

/-- JSON insignificant whitespace (Python `json` WHITESPACE regex
`[ \t\n\r]*`). -/
def isWsChar (c : Char) : Bool :=
  c.toNat = 32 || c.toNat = 9 || c.toNat = 10 || c.toNat = 13

/-- Skip insignificant whitespace. -/
def skipWs : List Char → List Char
  | [] => []
  | c :: cs => if isWsChar c then skipWs cs else c :: cs

/-- Decimal digit test. -/
def isDigitChar (c : Char) : Bool := 48 ≤ c.toNat && c.toNat ≤ 57

/-- Value of a decimal digit character. -/
def digitVal (c : Char) : Nat := c.toNat - 48

/-- Value of a hexadecimal digit character (both cases accepted, as in
Python's `\uXXXX` handling). -/
def hexVal (c : Char) : Option Nat :=
  if 48 ≤ c.toNat ∧ c.toNat ≤ 57 then some (c.toNat - 48)
  else if 97 ≤ c.toNat ∧ c.toNat ≤ 102 then some (c.toNat - 87)
  else if 65 ≤ c.toNat ∧ c.toNat ≤ 70 then some (c.toNat - 55)
  else none

/-- Greedy run of decimal digits with accumulator. -/
def parseDigitsAcc : List Char → Nat → Nat × List Char
  | [], acc => (acc, [])
  | c :: cs, acc =>
      if isDigitChar c then parseDigitsAcc cs (acc * 10 + digitVal c)
      else (acc, c :: cs)

/-- Unsigned JSON number per the grammar `0 | [1-9][0-9]*`: a leading `0`
is a complete number on its own. -/
def parseUNat : List Char → Option (Nat × List Char)
  | [] => none
  | c :: cs =>
      if c = '0' then some (0, cs)
      else if isDigitChar c then some (parseDigitsAcc (c :: cs) 0)
      else none

/-- A JSON integer: optional minus sign, then an unsigned number. -/
def parseNum : List Char → Option (Int × List Char)
  | [] => none
  | c :: cs =>
      if c = '-' then (parseUNat cs).map fun p => (-(p.1 : Int), p.2)
      else (parseUNat (c :: cs)).map fun p => ((p.1 : Int), p.2)

/-- Prepend a character to the string being accumulated by
`parseStrChars`. -/
def mapCons (c : Char) : Option (List Char × List Char) → Option (List Char × List Char)
  | some (s, r) => some (c :: s, r)
  | none => none

/-- String body parser, positioned just after the opening quote.  Strict
mode as in `json.loads`: raw control characters are rejected; the escapes
are quote, backslash, slash, `b f n r t` and `\uXXXX`. -/
def parseStrChars : List Char → Option (List Char × List Char)
  | [] => none
  | c :: cs =>
      if c = '"' then some ([], cs)
      else if c = '\\' then
        match cs with
        | [] => none
        | e :: r =>
            if e = '"' then mapCons '"' (parseStrChars r)
            else if e = '\\' then mapCons '\\' (parseStrChars r)
            else if e = '/' then mapCons '/' (parseStrChars r)
            else if e = 'b' then mapCons (Char.ofNat 8) (parseStrChars r)
            else if e = 'f' then mapCons (Char.ofNat 12) (parseStrChars r)
            else if e = 'n' then mapCons '\n' (parseStrChars r)
            else if e = 'r' then mapCons (Char.ofNat 13) (parseStrChars r)
            else if e = 't' then mapCons '\t' (parseStrChars r)
            else if e = 'u' then
              match r with
              | h1 :: h2 :: h3 :: h4 :: r2 =>
                  match hexVal h1, hexVal h2, hexVal h3, hexVal h4 with
                  | some a, some b, some c2, some d =>
                      mapCons (Char.ofNat (((a * 16 + b) * 16 + c2) * 16 + d))
                        (parseStrChars r2)
                  | _, _, _, _ => none
              | _ => none
            else none
      else if c.toNat < 32 then none
      else mapCons c (parseStrChars cs)

/-- Python dict item assignment `d[k] = v`: if the key is present its value
is replaced in place, otherwise the pair is appended. -/
def setItem : JsonObj → String → Json → JsonObj
  | .nil, k, v => .cons k v .nil
  | .cons k' v' ps, k, v =>
      if k' = k then .cons k' v ps else .cons k' v' (setItem ps k v)

/-- Fold the parsed member sequence into a dict by repeated assignment. -/
def pyDictGo : JsonObj → JsonObj → JsonObj
  | acc, .nil => acc
  | acc, .cons k v ps => pyDictGo (setItem acc k v) ps

/-- `dict(pairs)`: how `json.loads` turns the parsed member sequence into
an object (later duplicate keys overwrite the value, the first position is
kept). -/
def pyDict (ps : JsonObj) : JsonObj := pyDictGo .nil ps

mutual

/-- JSON value parser.  `fuel` bounds the recursion depth through nested
containers; every call site supplies enough fuel for its input.  The input
is positioned at a non-whitespace character (callers skip whitespace). -/
def parseValue : Nat → List Char → Option (Json × List Char)
  | 0, _ => none
  | _ + 1, [] => none
  | fuel + 1, c :: cs =>
      if c = 'n' then
        match cs with
        | 'u' :: 'l' :: 'l' :: r => some (.null, r)
        | _ => none
      else if c = 't' then
        match cs with
        | 'r' :: 'u' :: 'e' :: r => some (.bool true, r)
        | _ => none
      else if c = 'f' then
        match cs with
        | 'a' :: 'l' :: 's' :: 'e' :: r => some (.bool false, r)
        | _ => none
      else if c = '"' then
        match parseStrChars cs with
        | some (sc, r) => some (.str (String.mk sc), r)
        | none => none
      else if c = '[' then
        match skipWs cs with
        | [] => none
        | d :: ds =>
            if d = ']' then some (.arr .nil, ds)
            else
              match parseValue fuel (d :: ds) with
              | some (v, r2) =>
                  match parseArrTail fuel r2 with
                  | some (vs, r3) => some (.arr (.cons v vs), r3)
                  | none => none
              | none => none
      else if c = '\x7b' then
        match skipWs cs with
        | [] => none
        | d :: ds =>
            if d = '\x7d' then some (.obj .nil, ds)
            else if d = '"' then
              match parseStrChars ds with
              | some (kc, r2) =>
                  match skipWs r2 with
                  | [] => none
                  | e :: es =>
                      if e = ':' then
                        match parseValue fuel (skipWs es) with
                        | some (v, r3) =>
                            match parseObjTail fuel r3 with
                            | some (ps, r4) =>
                                some (.obj (pyDict (.cons (String.mk kc) v ps)), r4)
                            | none => none
                        | none => none
                      else none
              | none => none
            else none
      else
        match parseNum (c :: cs) with
        | some (n, r) => some (.num n, r)
        | none => none

/-- After one array item: either `]` closes the array or `,` introduces the
next item. -/
def parseArrTail : Nat → List Char → Option (JsonList × List Char)
  | 0, _ => none
  | fuel + 1, cs =>
      match skipWs cs with
      | [] => none
      | c :: r =>
          if c = ']' then some (.nil, r)
          else if c = ',' then
            match parseValue fuel (skipWs r) with
            | some (v, r2) =>
                match parseArrTail fuel r2 with
                | some (vs, r3) => some (.cons v vs, r3)
                | none => none
            | none => none
          else none

/-- After one object member: either the closing brace or `,` and the next
`"key": value` member.  The raw member sequence is returned; the caller
folds it with `pyDict`. -/
def parseObjTail : Nat → List Char → Option (JsonObj × List Char)
  | 0, _ => none
  | fuel + 1, cs =>
      match skipWs cs with
      | [] => none
      | c :: r =>
          if c = '\x7d' then some (.nil, r)
          else if c = ',' then
            match skipWs r with
            | [] => none
            | d :: ds =>
                if d = '"' then
                  match parseStrChars ds with
                  | some (kc, r2) =>
                      match skipWs r2 with
                      | [] => none
                      | e :: es =>
                          if e = ':' then
                            match parseValue fuel (skipWs es) with
                            | some (v, r3) =>
                                match parseObjTail fuel r3 with
                                | some (ps, r4) => some (.cons (String.mk kc) v ps, r4)
                                | none => none
                            | none => none
                          else none
                  | none => none
                else none
          else none

end

/-- `json.loads(s)`: skip leading whitespace, parse one value, skip
trailing whitespace, and reject the input if anything is left over
("Extra data").  The fuel `s.length + 1` is enough for any value the
string can spell (each unit of fuel is backed by at least one consumed
character). -/
def loads (s : String) : Option Json :=
  match parseValue (s.data.length + 1) (skipWs s.data) with
  | some (v, rest) => if skipWs rest = [] then some v else none
  | none => none

/-! ## Helper lemmas for the serialize/parse round trip -/

/-- `Char.toNat` determines the character. -/
theorem char_toNat_inj {c d : Char} (h : c.toNat = d.toNat) : c = d := by
  have hc := Char.ofNat_toNat c
  rw [h, Char.ofNat_toNat d] at hc
  exact hc.symm

/-- Whitespace skipping passes over any run of indentation spaces. -/
theorem skipWs_replicate (n : Nat) (cs : List Char) :
    skipWs (List.replicate n ' ' ++ cs) = skipWs cs := by
  induction n with
  | zero => rfl
  | succ m ih => simpa [skipWs, isWsChar] using ih

/-- Whitespace skipping stops at a non-whitespace character. -/
theorem skipWs_not_ws {c : Char} (h : isWsChar c = false) (cs : List Char) :
    skipWs (c :: cs) = c :: cs := by
  simp [skipWs, h]

/-- Whitespace skipping passes over the newline-plus-indentation runs the
serializer emits. -/
theorem skipWs_nl_ind (k : Nat) (cs : List Char) :
    skipWs ('\n' :: (indChars k ++ cs)) = skipWs cs := by
  have : isWsChar '\n' = true := by decide
  simp only [skipWs, this, if_true, indChars]
  exact skipWs_replicate _ _

/-- A decimal digit is not whitespace. -/
theorem digit_not_ws {c : Char} (h : isDigitChar c = true) : isWsChar c = false := by
  simp only [isDigitChar, Bool.and_eq_true, decide_eq_true_eq] at h
  simp only [isWsChar, Bool.or_eq_false_iff, decide_eq_false_iff_not]
  omega

/-- The list does not begin with a decimal digit (so a greedy digit run
stops in front of it). -/
def nonDigitStart : List Char → Bool
  | [] => true
  | c :: _ => !isDigitChar c

/-- A greedy digit run stops at a non-digit boundary. -/
theorem parseDigitsAcc_stop {rest : List Char} (h : nonDigitStart rest = true)
    (acc : Nat) : parseDigitsAcc rest acc = (acc, rest) := by
  cases rest with
  | nil => rfl
  | cons c cs =>
      simp only [nonDigitStart, Bool.not_eq_true'] at h
      simp [parseDigitsAcc, h]

/-- The character of a decimal digit value is a digit character. -/
theorem isDigitChar_digit {d : Nat} (h : d < 10) :
    isDigitChar (Char.ofNat (48 + d)) = true := by
  interval_cases d <;> decide

/-- Reading back the character of a decimal digit value. -/
theorem digitVal_digit {d : Nat} (h : d < 10) :
    digitVal (Char.ofNat (48 + d)) = d := by
  interval_cases d <;> decide

/-- The decimal spelling of `n` is nonempty, starts with a digit, and for
positive `n` does not start with `'0'`. -/
theorem natDigits_cons (n : Nat) :
    ∃ c cs, natDigits n = c :: cs ∧ isDigitChar c = true ∧ (0 < n → c ≠ '0') := by
  induction n using Nat.strong_induction_on with
  | _ n ih =>
      by_cases h : n < 10
      · refine ⟨Char.ofNat (48 + n), [], by rw [natDigits_unfold]; simp [h],
          isDigitChar_digit h, ?_⟩
        intro hn
        interval_cases n <;> decide
      · obtain ⟨c, cs, hcons, hdig, hnz⟩ := ih (n / 10) (Nat.div_lt_self (by omega) (by omega))
        refine ⟨c, cs ++ [Char.ofNat (48 + n % 10)], ?_, hdig, fun _ => ?_⟩
        · rw [natDigits_unfold]; simp [h, hcons]
        · exact hnz (by omega)

/-- Consuming the decimal spelling of `n` shifts the accumulator by the
number of digits and adds `n`. -/
theorem parseDigitsAcc_natDigits (n : Nat) : ∀ (acc : Nat) (rest : List Char),
    parseDigitsAcc (natDigits n ++ rest) acc =
      parseDigitsAcc rest (acc * 10 ^ (natDigits n).length + n) := by
  induction n using Nat.strong_induction_on with
  | _ n ih =>
      by_cases h : n < 10
      · intro acc rest
        rw [natDigits_unfold]
        simp [h, parseDigitsAcc, isDigitChar_digit h, digitVal_digit h]
      · intro acc rest
        rw [natDigits_unfold]
        simp only [h, if_false, List.append_assoc, List.singleton_append, List.length_append,
          List.length_singleton]
        rw [ih (n / 10) (Nat.div_lt_self (by omega) (by omega))]
        have h10 : n % 10 < 10 := Nat.mod_lt _ (by omega)
        simp [parseDigitsAcc, isDigitChar_digit h10, digitVal_digit h10]
        congr 1
        have := Nat.div_add_mod n 10
        ring_nf
        omega

/-- Round trip for the unsigned-number grammar `0 | [1-9][0-9]*`. -/
theorem parseUNat_natDigits (n : Nat) {rest : List Char}
    (h : nonDigitStart rest = true) :
    parseUNat (natDigits n ++ rest) = some (n, rest) := by
  obtain ⟨c, cs, hcons, hdig, hnz⟩ := natDigits_cons n
  by_cases h0 : n = 0
  · subst h0
    rw [natDigits_unfold]
    simp only [show (0:Nat) < 10 by omega, if_true]
    simp [parseUNat, show Char.ofNat 48 = '0' from by decide]
  · have hc0 : c ≠ '0' := hnz (by omega)
    rw [hcons, List.cons_append, parseUNat]
    simp only [hc0, if_false, hdig, if_true]
    rw [← List.cons_append, ← hcons, parseDigitsAcc_natDigits, parseDigitsAcc_stop h]
    simp

/-- A digit character is not the minus sign. -/
theorem digit_ne_minus {c : Char} (h : isDigitChar c = true) : c ≠ '-' := by
  intro hc
  subst hc
  simp [isDigitChar] at h

/-- Round trip for integers: parsing the decimal representation emitted by
the serializer recovers the integer. -/
theorem parseNum_serNum (i : Int) {rest : List Char}
    (h : nonDigitStart rest = true) :
    parseNum (serNum i ++ rest) = some (i, rest) := by
  cases i with
  | ofNat m =>
      obtain ⟨c, cs, hcons, hdig, -⟩ := natDigits_cons m
      rw [serNum, hcons, List.cons_append, parseNum]
      simp only [digit_ne_minus hdig, if_false]
      rw [← List.cons_append, ← hcons, parseUNat_natDigits m h]
      simp
  | negSucc m =>
      rw [serNum, List.cons_append, parseNum]
      simp only [show ('-' : Char) = '-' from rfl, if_true]
      rw [parseUNat_natDigits (m + 1) h]
      simp [Int.negSucc_eq]

/-- Reading back a hexadecimal digit character. -/
theorem hexVal_hexDigit {d : Nat} (h : d < 16) : hexVal (hexDigit d) = some d := by
  interval_cases d <;> decide

/-- A character whose code point differs from `d`'s is not `d`. -/
theorem char_ne_of_toNat {c : Char} {n : Nat} (h : c.toNat = n) (d : Char)
    (hd : d.toNat ≠ n) : c ≠ d := by
  intro hc
  exact hd (hc ▸ h)

/-- Unescaping one escaped character: the parser consumes exactly the
escape sequence `escChar c` and produces `c`. -/
theorem parseStrChars_escChar (c : Char) (tail : List Char) :
    parseStrChars (escChar c ++ tail) = mapCons c (parseStrChars tail) := by
  by_cases hq : c = '"'
  · subst hq
    rw [show escChar '"' = ['\\', '"'] from by decide]
    rw [List.cons_append, List.cons_append, List.nil_append, parseStrChars.eq_def]
    simp
  by_cases hb : c = '\\'
  · subst hb
    rw [show escChar '\\' = ['\\', '\\'] from by decide]
    rw [List.cons_append, List.cons_append, List.nil_append, parseStrChars.eq_def]
    simp
  by_cases h8 : c.toNat = 8
  · have hc : Char.ofNat 8 = c := by rw [← h8, Char.ofNat_toNat]
    rw [show escChar c = ['\\', 'b'] from by
      unfold escChar; rw [if_neg hq, if_neg hb, if_pos h8]]
    rw [List.cons_append, List.cons_append, List.nil_append, parseStrChars.eq_def]
    simp [← hc]
  by_cases h12 : c.toNat = 12
  · have hc : Char.ofNat 12 = c := by rw [← h12, Char.ofNat_toNat]
    rw [show escChar c = ['\\', 'f'] from by
      unfold escChar; rw [if_neg hq, if_neg hb, if_neg h8, if_pos h12]]
    rw [List.cons_append, List.cons_append, List.nil_append, parseStrChars.eq_def]
    simp [← hc]
  by_cases h10 : c.toNat = 10
  · have hc : Char.ofNat 10 = c := by rw [← h10, Char.ofNat_toNat]
    rw [show escChar c = ['\\', 'n'] from by
      unfold escChar; rw [if_neg hq, if_neg hb, if_neg h8, if_neg h12, if_pos h10]]
    rw [List.cons_append, List.cons_append, List.nil_append, parseStrChars.eq_def]
    have hn : ('\n' : Char) = c := char_toNat_inj (by rw [h10]; rfl)
    simp [← hn]
  by_cases h13 : c.toNat = 13
  · have hc : Char.ofNat 13 = c := by rw [← h13, Char.ofNat_toNat]
    rw [show escChar c = ['\\', 'r'] from by
      unfold escChar; rw [if_neg hq, if_neg hb, if_neg h8, if_neg h12, if_neg h10, if_pos h13]]
    rw [List.cons_append, List.cons_append, List.nil_append, parseStrChars.eq_def]
    simp [← hc]
  by_cases h9 : c.toNat = 9
  · have hc : Char.ofNat 9 = c := by rw [← h9, Char.ofNat_toNat]
    rw [show escChar c = ['\\', 't'] from by
      unfold escChar; rw [if_neg hq, if_neg hb, if_neg h8, if_neg h12, if_neg h10, if_neg h13,
        if_pos h9]]
    rw [List.cons_append, List.cons_append, List.nil_append, parseStrChars.eq_def]
    have hn : ('\t' : Char) = c := char_toNat_inj (by rw [h9]; rfl)
    simp [← hn]
  by_cases hlt : c.toNat < 32
  · have hdiv : c.toNat / 16 < 16 := by omega
    have hmod : c.toNat % 16 < 16 := Nat.mod_lt _ (by omega)
    rw [show escChar c = ['\\', 'u', '0', '0', hexDigit (c.toNat / 16), hexDigit (c.toNat % 16)]
      from by
        unfold escChar
        rw [if_neg hq, if_neg hb, if_neg h8, if_neg h12, if_neg h10, if_neg h13, if_neg h9,
          if_pos hlt]]
    rw [List.cons_append, List.cons_append, List.cons_append, List.cons_append,
      List.cons_append, List.cons_append, List.nil_append, parseStrChars.eq_def]
    simp only [show ¬('\\' : Char) = '"' from by decide, show ('\\' : Char) = '\\' from rfl,
      if_true, if_false, show ¬('u' : Char) = '"' from by decide,
      show ¬('u' : Char) = '\\' from by decide, show ¬('u' : Char) = '/' from by decide,
      show ¬('u' : Char) = 'b' from by decide, show ¬('u' : Char) = 'f' from by decide,
      show ¬('u' : Char) = 'n' from by decide, show ¬('u' : Char) = 'r' from by decide,
      show ¬('u' : Char) = 't' from by decide, show ('u' : Char) = 'u' from rfl,
      hexVal_hexDigit hdiv, hexVal_hexDigit hmod, show hexVal '0' = some 0 from by decide]
    have : Char.ofNat (((0 * 16 + 0) * 16 + c.toNat / 16) * 16 + c.toNat % 16) = c := by
      conv_rhs => rw [← Char.ofNat_toNat c]
      congr 1
      omega
    rw [this]
  · rw [show escChar c = [c] from by
      unfold escChar
      rw [if_neg hq, if_neg hb, if_neg h8, if_neg h12, if_neg h10, if_neg h13, if_neg h9,
        if_neg hlt]]
    rw [List.cons_append, List.nil_append, parseStrChars.eq_def]
    simp only [hq, hb, hlt, if_false]

/-- Round trip for string bodies: parsing the escaped body followed by the
closing quote recovers the original characters. -/
theorem parseStrChars_escChars (s : List Char) (rest : List Char) :
    parseStrChars (escChars s ++ '"' :: rest) = some (s, rest) := by
  induction s with
  | nil =>
      show parseStrChars ('"' :: rest) = some ([], rest)
      rw [parseStrChars.eq_def]
      simp
  | cons c cs ih =>
      rw [escChars, List.append_assoc, parseStrChars_escChar, ih]
      rfl

/-! ## Fuel bounds, duplicate keys, and head-character facts -/

mutual

/-- Fuel needed by `parseValue` to parse the serialization of a value. -/
def jsize : Json → Nat
  | .null => 1
  | .bool _ => 1
  | .num _ => 1
  | .str _ => 1
  | .arr .nil => 1
  | .arr (.cons v vs) => 1 + jsize v + jsizeL vs
  | .obj .nil => 1
  | .obj (.cons _ v ps) => 1 + jsize v + jsizeO ps

/-- Fuel needed by `parseArrTail` after the first array item. -/
def jsizeL : JsonList → Nat
  | .nil => 1
  | .cons v vs => 1 + jsize v + jsizeL vs

/-- Fuel needed by `parseObjTail` after the first object member. -/
def jsizeO : JsonObj → Nat
  | .nil => 1
  | .cons _ v ps => 1 + jsize v + jsizeO ps

end

/-- Key membership in a member sequence. -/
def keyMemO (k : String) : JsonObj → Bool
  | .nil => false
  | .cons k' _ ps => if k' = k then true else keyMemO k ps

/-- The member sequence has pairwise distinct keys. -/
def keysOK : JsonObj → Bool
  | .nil => true
  | .cons k _ ps => !keyMemO k ps && keysOK ps

mutual

/-- Every object nested in the value has pairwise distinct keys.  Parsed
Python values always satisfy this: a `dict` cannot hold a key twice. -/
def jNoDup : Json → Bool
  | .null => true
  | .bool _ => true
  | .num _ => true
  | .str _ => true
  | .arr xs => jNoDupL xs
  | .obj ps => keysOK ps && jNoDupO ps

/-- `jNoDup` on every element. -/
def jNoDupL : JsonList → Bool
  | .nil => true
  | .cons v vs => jNoDup v && jNoDupL vs

/-- `jNoDup` on every member value. -/
def jNoDupO : JsonObj → Bool
  | .nil => true
  | .cons _ v ps => jNoDup v && jNoDupO ps

end

/-- Spine induction for member sequences (the `induction` tactic does not
handle mutual inductives directly). -/
def JsonObj.spineInd {motive : JsonObj → Prop} (nil : motive .nil)
    (cons : ∀ k v ps, motive ps → motive (.cons k v ps)) : ∀ ps, motive ps
  | .nil => nil
  | .cons k v ps => cons k v ps (JsonObj.spineInd nil cons ps)

/-- Spine induction for arrays. -/
def JsonList.spineInd {motive : JsonList → Prop} (nil : motive .nil)
    (cons : ∀ v vs, motive vs → motive (.cons v vs)) : ∀ vs, motive vs
  | .nil => nil
  | .cons v vs => cons v vs (JsonList.spineInd nil cons vs)

/-- Concatenation of member sequences. -/
def JsonObj.append : JsonObj → JsonObj → JsonObj
  | .nil, qs => qs
  | .cons k v ps, qs => .cons k v (ps.append qs)

/-- Appending the empty member sequence is the identity. -/
theorem JsonObj.append_nil (ps : JsonObj) : ps.append .nil = ps := by
  induction ps using JsonObj.spineInd with
  | nil => rfl
  | cons k v ps ih => rw [JsonObj.append, ih]

/-- Key membership distributes over concatenation. -/
theorem keyMemO_append (key : String) (ps qs : JsonObj) :
    keyMemO key (ps.append qs) = (keyMemO key ps || keyMemO key qs) := by
  induction ps using JsonObj.spineInd with
  | nil => rfl
  | cons k v ps ih =>
      rw [JsonObj.append, keyMemO, keyMemO, ih]
      by_cases h : k = key <;> simp [h]

/-- Appending a singleton then a sequence is a single cons in the middle. -/
theorem JsonObj.append_middle (acc : JsonObj) (k : String) (v : Json) (ps : JsonObj) :
    (acc.append (.cons k v .nil)).append ps = acc.append (.cons k v ps) := by
  induction acc using JsonObj.spineInd with
  | nil => rfl
  | cons k' v' acc ih => rw [JsonObj.append, JsonObj.append, JsonObj.append, ih]

/-- Assigning a fresh key appends the pair at the end (Python dict
`d[k] = v` with `k` absent). -/
theorem setItem_notMem {acc : JsonObj} {k : String} {v : Json}
    (h : keyMemO k acc = false) :
    setItem acc k v = acc.append (.cons k v .nil) := by
  induction acc using JsonObj.spineInd with
  | nil => rfl
  | cons k' v' acc ih =>
      rw [keyMemO] at h
      by_cases hk : k' = k
      · rw [if_pos hk] at h
        exact absurd h (by simp)
      · rw [if_neg hk] at h
        rw [setItem, if_neg hk, JsonObj.append, ih h]

/-- Folding distinct, fresh members into an accumulator just concatenates
them. -/
theorem pyDictGo_disjoint (ps : JsonObj) : ∀ acc : JsonObj, keysOK ps = true →
    (∀ key, keyMemO key ps = true → keyMemO key acc = false) →
    pyDictGo acc ps = acc.append ps := by
  induction ps using JsonObj.spineInd with
  | nil => intro acc _ _; rw [pyDictGo, JsonObj.append_nil]
  | cons k v ps ih =>
      intro acc hok hdisj
      rw [keysOK, Bool.and_eq_true, Bool.not_eq_true'] at hok
      have hkacc : keyMemO k acc = false := by
        apply hdisj
        rw [keyMemO, if_pos rfl]
      rw [pyDictGo, setItem_notMem hkacc, ih _ hok.2, JsonObj.append_middle]
      intro key hkey
      rw [keyMemO_append]
      have hne : ¬k = key := by
        intro he
        rw [he, hkey] at hok
        exact absurd hok.1 (by simp)
      have h1 : keyMemO key acc = false :=
        hdisj key (by rw [keyMemO, if_neg hne, hkey])
      rw [h1, keyMemO, if_neg hne, keyMemO]
      rfl

/-- `dict(pairs)` is the identity on duplicate-free member sequences. -/
theorem pyDict_id {ps : JsonObj} (h : keysOK ps = true) : pyDict ps = ps := by
  rw [pyDict, pyDictGo_disjoint ps JsonObj.nil h (fun key _ => rfl)]
  rfl

/-- Skipping whitespace consumes a whitespace head. -/
theorem skipWs_ws_cons {c : Char} (h : isWsChar c = true) (cs : List Char) :
    skipWs (c :: cs) = skipWs cs := by
  rw [skipWs, if_pos h]

/-- A digit character differs from every non-digit character. -/
theorem digit_ne_of {c d : Char} (h : isDigitChar c = true)
    (hd : isDigitChar d = false) : c ≠ d := by
  intro e
  subst e
  rw [h] at hd
  exact absurd hd (by simp)

/-- The decimal representation of an integer starts with a digit or the
minus sign. -/
theorem serNum_head (i : Int) :
    ∃ c cs, serNum i = c :: cs ∧ (isDigitChar c = true ∨ c = '-') := by
  cases i with
  | ofNat m =>
      obtain ⟨c, cs, hcons, hdig, -⟩ := natDigits_cons m
      exact ⟨c, cs, by rw [serNum, hcons], Or.inl hdig⟩
  | negSucc m => exact ⟨'-', natDigits (m + 1), by rw [serNum], Or.inr rfl⟩

/-- A number's first character differs from any character that is neither
a digit nor the minus sign. -/
theorem numHead_ne {c : Char} (h : isDigitChar c = true ∨ c = '-') (d : Char)
    (hd : isDigitChar d = false) (hd2 : d ≠ '-') : c ≠ d := by
  cases h with
  | inl h => exact digit_ne_of h hd
  | inr h => intro e; exact hd2 (e ▸ h)

/-- Every serialized value starts with a non-whitespace character that is
not a closing bracket. -/
theorem serValue_head : ∀ (v : Json) (k : Nat),
    ∃ c cs, serValue v k = c :: cs ∧ isWsChar c = false ∧ c ≠ ']'
  | .null, _ => ⟨'n', ['u', 'l', 'l'], by simp only [serValue], by decide, by decide⟩
  | .bool true, _ => ⟨'t', ['r', 'u', 'e'], by simp only [serValue], by decide, by decide⟩
  | .bool false, _ => ⟨'f', ['a', 'l', 's', 'e'], by simp only [serValue], by decide, by decide⟩
  | .num n, _ => by
      obtain ⟨c, cs, hcons, hhead⟩ := serNum_head n
      refine ⟨c, cs, by simp only [serValue, hcons], ?_, ?_⟩
      · cases hhead with
        | inl h => exact digit_not_ws h
        | inr h => subst h; decide
      · exact numHead_ne hhead ']' (by decide) (by decide)
  | .str s, _ => ⟨'"', escChars s.data ++ ['"'], by simp only [serValue], by decide, by decide⟩
  | .arr .nil, _ => ⟨'[', [']'], by simp only [serValue], by decide, by decide⟩
  | .arr (.cons v vs), k =>
      ⟨'[', '\n' :: (indChars (k + 1) ++ serValue v (k + 1) ++ serArrTail vs (k + 1) ++
        '\n' :: (indChars k ++ [']'])), by simp only [serValue], by decide, by decide⟩
  | .obj .nil, _ => ⟨'\x7b', ['\x7d'], by simp only [serValue], by decide, by decide⟩
  | .obj (.cons key v ps), k =>
      ⟨'\x7b', '\n' :: (indChars (k + 1) ++ serMember key (serValue v (k + 1)) ++
        serObjTail ps (k + 1) ++ '\n' :: (indChars k ++ ['\x7d'])),
        by simp only [serValue], by decide, by decide⟩

/-- Whitespace skipping does not enter a serialized value. -/
theorem skipWs_serValue (v : Json) (k : Nat) (rest : List Char) :
    skipWs (serValue v k ++ rest) = serValue v k ++ rest := by
  obtain ⟨c, cs, hcons, hws, -⟩ := serValue_head v k
  rw [hcons, List.cons_append, skipWs_not_ws hws]

/-- What follows a value inside a serialized array never starts with a
digit. -/
theorem nonDigitStart_serArrTail (vs : JsonList) (k : Nat) (x : List Char) :
    nonDigitStart (serArrTail vs k ++ '\n' :: x) = true := by
  cases vs with
  | nil =>
      simp only [serArrTail, List.nil_append]
      rw [nonDigitStart]
      decide
  | cons v vs =>
      simp only [serArrTail, List.cons_append]
      rw [nonDigitStart]
      decide

/-- What follows a value inside a serialized object never starts with a
digit. -/
theorem nonDigitStart_serObjTail (ps : JsonObj) (k : Nat) (x : List Char) :
    nonDigitStart (serObjTail ps k ++ '\n' :: x) = true := by
  cases ps with
  | nil =>
      simp only [serObjTail, List.nil_append]
      rw [nonDigitStart]
      decide
  | cons key v ps =>
      simp only [serObjTail, List.cons_append]
      rw [nonDigitStart]
      decide

/-- `String.mk` of the characters of a string is the string. -/
theorem string_mk_data (s : String) : String.mk s.data = s := rfl

/-- One unfolding step of `parseValue` on a cons cell (the definition is
fuel-structural, so this is definitional). -/
theorem parseValue_step (f : Nat) (c : Char) (cs : List Char) :
    parseValue (f + 1) (c :: cs) =
      (if c = 'n' then
        match cs with
        | 'u' :: 'l' :: 'l' :: r => some (.null, r)
        | _ => none
      else if c = 't' then
        match cs with
        | 'r' :: 'u' :: 'e' :: r => some (.bool true, r)
        | _ => none
      else if c = 'f' then
        match cs with
        | 'a' :: 'l' :: 's' :: 'e' :: r => some (.bool false, r)
        | _ => none
      else if c = '"' then
        match parseStrChars cs with
        | some (sc, r) => some (.str (String.mk sc), r)
        | none => none
      else if c = '[' then
        match skipWs cs with
        | [] => none
        | d :: ds =>
            if d = ']' then some (.arr .nil, ds)
            else
              match parseValue f (d :: ds) with
              | some (v, r2) =>
                  match parseArrTail f r2 with
                  | some (vs, r3) => some (.arr (.cons v vs), r3)
                  | none => none
              | none => none
      else if c = '\x7b' then
        match skipWs cs with
        | [] => none
        | d :: ds =>
            if d = '\x7d' then some (.obj .nil, ds)
            else if d = '"' then
              match parseStrChars ds with
              | some (kc, r2) =>
                  match skipWs r2 with
                  | [] => none
                  | e :: es =>
                      if e = ':' then
                        match parseValue f (skipWs es) with
                        | some (v, r3) =>
                            match parseObjTail f r3 with
                            | some (ps, r4) =>
                                some (.obj (pyDict (.cons (String.mk kc) v ps)), r4)
                            | none => none
                        | none => none
                      else none
              | none => none
            else none
      else
        match parseNum (c :: cs) with
        | some (n, r) => some (.num n, r)
        | none => none) := rfl

/-- One unfolding step of `parseArrTail` at positive fuel. -/
theorem parseArrTail_step (f : Nat) (cs : List Char) :
    parseArrTail (f + 1) cs =
      (match skipWs cs with
       | [] => none
       | c :: r =>
           if c = ']' then some (.nil, r)
           else if c = ',' then
             match parseValue f (skipWs r) with
             | some (v, r2) =>
                 match parseArrTail f r2 with
                 | some (vs, r3) => some (.cons v vs, r3)
                 | none => none
             | none => none
           else none) := rfl

/-- One unfolding step of `parseObjTail` at positive fuel. -/
theorem parseObjTail_step (f : Nat) (cs : List Char) :
    parseObjTail (f + 1) cs =
      (match skipWs cs with
       | [] => none
       | c :: r =>
           if c = '\x7d' then some (.nil, r)
           else if c = ',' then
             match skipWs r with
             | [] => none
             | d :: ds =>
                 if d = '"' then
                   match parseStrChars ds with
                   | some (kc, r2) =>
                       match skipWs r2 with
                       | [] => none
                       | e :: es =>
                           if e = ':' then
                             match parseValue f (skipWs es) with
                             | some (v, r3) =>
                                 match parseObjTail f r3 with
                                 | some (ps, r4) => some (.cons (String.mk kc) v ps, r4)
                                 | none => none
                             | none => none
                           else none
                   | none => none
                 else none
           else none) := rfl

mutual

/-- Round trip, value level: parsing the serialization of `v` (at any
indentation depth, with enough fuel, in front of any non-digit-led
remainder) yields exactly `v` and the remainder. -/
theorem ser_parseValue : ∀ (v : Json) (fuel k : Nat) (rest : List Char),
    jsize v ≤ fuel → jNoDup v = true → nonDigitStart rest = true →
    parseValue fuel (serValue v k ++ rest) = some (v, rest)
  | .null, fuel, k, rest, hf, _, _ => by
      simp only [jsize] at hf
      obtain ⟨f, rfl⟩ : ∃ f, fuel = f + 1 := ⟨fuel - 1, by omega⟩
      simp only [serValue]
      rfl
  | .bool true, fuel, k, rest, hf, _, _ => by
      simp only [jsize] at hf
      obtain ⟨f, rfl⟩ : ∃ f, fuel = f + 1 := ⟨fuel - 1, by omega⟩
      simp only [serValue]
      rfl
  | .bool false, fuel, k, rest, hf, _, _ => by
      simp only [jsize] at hf
      obtain ⟨f, rfl⟩ : ∃ f, fuel = f + 1 := ⟨fuel - 1, by omega⟩
      simp only [serValue]
      rfl
  | .num n, fuel, k, rest, hf, _, hr => by
      simp only [jsize] at hf
      obtain ⟨f, rfl⟩ : ∃ f, fuel = f + 1 := ⟨fuel - 1, by omega⟩
      obtain ⟨c, cs, hcons, hhead⟩ := serNum_head n
      rw [show serValue (.num n) k = serNum n from by simp only [serValue], hcons,
        List.cons_append, parseValue_step]
      simp only [numHead_ne hhead 'n' (by decide) (by decide),
        numHead_ne hhead 't' (by decide) (by decide),
        numHead_ne hhead 'f' (by decide) (by decide),
        numHead_ne hhead '"' (by decide) (by decide),
        numHead_ne hhead '[' (by decide) (by decide),
        numHead_ne hhead '\x7b' (by decide) (by decide),
        ite_false]
      rw [← List.cons_append, ← hcons, parseNum_serNum n hr]
  | .str s, fuel, k, rest, hf, _, _ => by
      simp only [jsize] at hf
      obtain ⟨f, rfl⟩ : ∃ f, fuel = f + 1 := ⟨fuel - 1, by omega⟩
      simp only [serValue, List.cons_append]
      rw [parseValue_step]
      simp only [Char.reduceEq, reduceIte]
      rw [List.append_assoc, List.singleton_append, parseStrChars_escChars]
  | .arr .nil, fuel, k, rest, hf, _, _ => by
      simp only [jsize] at hf
      obtain ⟨f, rfl⟩ : ∃ f, fuel = f + 1 := ⟨fuel - 1, by omega⟩
      simp only [serValue]
      rfl
  | .arr (.cons v vs), fuel, k, rest, hf, hd, _ => by
      simp only [jsize] at hf
      obtain ⟨f, rfl⟩ : ∃ f, fuel = f + 1 := ⟨fuel - 1, by omega⟩
      simp only [jNoDup, jNoDupL, Bool.and_eq_true] at hd
      simp only [serValue, List.cons_append, List.append_assoc, List.singleton_append,
        List.nil_append]
      rw [parseValue_step]
      simp only [Char.reduceEq, reduceIte]
      rw [skipWs_nl_ind (k + 1), skipWs_serValue]
      obtain ⟨c1, cs1, hcons1, hws1, hnb1⟩ := serValue_head v (k + 1)
      rw [hcons1, List.cons_append]
      simp only [hnb1, ite_false]
      rw [← List.cons_append, ← hcons1]
      have hv := ser_parseValue v f (k + 1)
        (serArrTail vs (k + 1) ++ '\n' :: (indChars k ++ (']' :: rest)))
        (by omega) hd.1 (nonDigitStart_serArrTail vs (k + 1) _)
      have ht := ser_parseArrTail vs f (k + 1) k rest (by omega) hd.2
      simp [hv, ht]
  | .obj .nil, fuel, k, rest, hf, _, _ => by
      simp only [jsize] at hf
      obtain ⟨f, rfl⟩ : ∃ f, fuel = f + 1 := ⟨fuel - 1, by omega⟩
      simp only [serValue]
      rfl
  | .obj (.cons key v ps), fuel, k, rest, hf, hd, _ => by
      simp only [jsize] at hf
      obtain ⟨f, rfl⟩ : ∃ f, fuel = f + 1 := ⟨fuel - 1, by omega⟩
      simp only [jNoDup, jNoDupO, Bool.and_eq_true] at hd
      simp only [serValue, serMember, List.cons_append, List.append_assoc,
        List.singleton_append, List.nil_append]
      rw [parseValue_step]
      simp only [Char.reduceEq, reduceIte]
      rw [skipWs_nl_ind (k + 1), skipWs_not_ws (show isWsChar '"' = false from by decide)]
      simp only [Char.reduceEq, reduceIte]
      rw [parseStrChars_escChars key.data
        (':' :: (' ' :: (serValue v (k + 1) ++ (serObjTail ps (k + 1) ++
          '\n' :: (indChars k ++ ('\x7d' :: rest))))))]
      simp only [Char.reduceEq, reduceIte]
      rw [skipWs_not_ws (show isWsChar ':' = false from by decide)]
      simp only [Char.reduceEq, reduceIte]
      rw [skipWs_ws_cons (show isWsChar ' ' = true from by decide), skipWs_serValue]
      have hv := ser_parseValue v f (k + 1)
        (serObjTail ps (k + 1) ++ '\n' :: (indChars k ++ ('\x7d' :: rest)))
        (by omega) hd.2.1 (nonDigitStart_serObjTail ps (k + 1) _)
      have ht := ser_parseObjTail ps f (k + 1) k rest (by omega) hd.2.2
      simp [hv, ht, string_mk_data, pyDict_id hd.1]

/-- Round trip, array-tail level: after the first item, the parser
consumes the remaining serialized items and the closing bracket. -/
theorem ser_parseArrTail : ∀ (vs : JsonList) (fuel k1 k2 : Nat) (rest : List Char),
    jsizeL vs ≤ fuel → jNoDupL vs = true →
    parseArrTail fuel (serArrTail vs k1 ++ '\n' :: (indChars k2 ++ (']' :: rest))) =
      some (vs, rest)
  | .nil, fuel, k1, k2, rest, hf, _ => by
      simp only [jsizeL] at hf
      obtain ⟨f, rfl⟩ : ∃ f, fuel = f + 1 := ⟨fuel - 1, by omega⟩
      simp only [serArrTail, List.nil_append]
      rw [parseArrTail_step, skipWs_nl_ind k2,
        skipWs_not_ws (show isWsChar ']' = false from by decide)]
      simp only [Char.reduceEq, reduceIte]
  | .cons v vs, fuel, k1, k2, rest, hf, hd => by
      simp only [jsizeL] at hf
      obtain ⟨f, rfl⟩ : ∃ f, fuel = f + 1 := ⟨fuel - 1, by omega⟩
      simp only [jNoDupL, Bool.and_eq_true] at hd
      simp only [serArrTail, List.cons_append, List.append_assoc, List.singleton_append,
        List.nil_append]
      rw [parseArrTail_step, skipWs_not_ws (show isWsChar ',' = false from by decide)]
      simp only [Char.reduceEq, reduceIte]
      rw [skipWs_nl_ind k1, skipWs_serValue]
      have hv := ser_parseValue v f k1
        (serArrTail vs k1 ++ '\n' :: (indChars k2 ++ (']' :: rest)))
        (by omega) hd.1 (nonDigitStart_serArrTail vs k1 _)
      have ht := ser_parseArrTail vs f k1 k2 rest (by omega) hd.2
      simp [hv, ht]

/-- Round trip, object-tail level: after the first member, the parser
consumes the remaining serialized members and the closing brace. -/
theorem ser_parseObjTail : ∀ (ps : JsonObj) (fuel k1 k2 : Nat) (rest : List Char),
    jsizeO ps ≤ fuel → jNoDupO ps = true →
    parseObjTail fuel (serObjTail ps k1 ++ '\n' :: (indChars k2 ++ ('\x7d' :: rest))) =
      some (ps, rest)
  | .nil, fuel, k1, k2, rest, hf, _ => by
      simp only [jsizeO] at hf
      obtain ⟨f, rfl⟩ : ∃ f, fuel = f + 1 := ⟨fuel - 1, by omega⟩
      simp only [serObjTail, List.nil_append]
      rw [parseObjTail_step, skipWs_nl_ind k2,
        skipWs_not_ws (show isWsChar '\x7d' = false from by decide)]
      simp only [Char.reduceEq, reduceIte]
  | .cons key v ps, fuel, k1, k2, rest, hf, hd => by
      simp only [jsizeO] at hf
      obtain ⟨f, rfl⟩ : ∃ f, fuel = f + 1 := ⟨fuel - 1, by omega⟩
      simp only [jNoDupO, Bool.and_eq_true] at hd
      simp only [serObjTail, serMember, List.cons_append, List.append_assoc,
        List.singleton_append, List.nil_append]
      rw [parseObjTail_step, skipWs_not_ws (show isWsChar ',' = false from by decide)]
      simp only [Char.reduceEq, reduceIte]
      rw [skipWs_nl_ind k1, skipWs_not_ws (show isWsChar '"' = false from by decide)]
      simp only [Char.reduceEq, reduceIte]
      rw [parseStrChars_escChars key.data
        (':' :: (' ' :: (serValue v k1 ++ (serObjTail ps k1 ++
          '\n' :: (indChars k2 ++ ('\x7d' :: rest))))))]
      simp only [Char.reduceEq, reduceIte]
      rw [skipWs_not_ws (show isWsChar ':' = false from by decide)]
      simp only [Char.reduceEq, reduceIte]
      rw [skipWs_ws_cons (show isWsChar ' ' = true from by decide), skipWs_serValue]
      have hv := ser_parseValue v f k1
        (serObjTail ps k1 ++ '\n' :: (indChars k2 ++ ('\x7d' :: rest)))
        (by omega) hd.1 (nonDigitStart_serObjTail ps k1 _)
      have ht := ser_parseObjTail ps f k1 k2 rest (by omega) hd.2
      simp [hv, ht, string_mk_data]

end

mutual

/-- The fuel `jsize` is covered by the serialized length plus one. -/
theorem jsize_le_len : ∀ (v : Json) (k : Nat), jsize v ≤ (serValue v k).length + 1
  | .null, k => by simp [jsize, serValue]
  | .bool b, k => by cases b <;> simp [jsize, serValue]
  | .num n, k => by simp only [jsize]; omega
  | .str s, k => by simp only [jsize]; omega
  | .arr .nil, k => by simp [jsize, serValue]
  | .arr (.cons v vs), k => by
      have h1 := jsize_le_len v (k + 1)
      have h2 := jsizeL_le_len vs (k + 1)
      simp only [jsize, serValue, List.length_cons, List.length_append] at *
      omega
  | .obj .nil, k => by simp [jsize, serValue]
  | .obj (.cons key v ps), k => by
      have h1 := jsize_le_len v (k + 1)
      have h2 := jsizeO_le_len ps (k + 1)
      simp only [jsize, serValue, serMember, List.length_cons, List.length_append] at *
      omega

/-- Fuel bound for array tails. -/
theorem jsizeL_le_len : ∀ (vs : JsonList) (k : Nat), jsizeL vs ≤ (serArrTail vs k).length + 2
  | .nil, k => by simp [jsizeL, serArrTail]
  | .cons v vs, k => by
      have h1 := jsize_le_len v k
      have h2 := jsizeL_le_len vs k
      simp only [jsizeL, serArrTail, List.length_cons, List.length_append] at *
      omega

/-- Fuel bound for object tails. -/
theorem jsizeO_le_len : ∀ (ps : JsonObj) (k : Nat), jsizeO ps ≤ (serObjTail ps k).length + 2
  | .nil, k => by simp [jsizeO, serObjTail]
  | .cons key v ps, k => by
      have h1 := jsize_le_len v k
      have h2 := jsizeO_le_len ps k
      simp only [jsizeO, serObjTail, serMember, List.length_cons, List.length_append] at *
      omega

end

/-- Serialize/parse round trip at the top level: `json.loads` of the
`json.dump(·, indent=2)` output reconstructs the value (for values without
duplicate object keys, which covers every value a Python `dict` tree can
be). -/
theorem loads_dumps {v : Json} (h : jNoDup v = true) : loads (dumps v) = some v := by
  have hdata : (dumps v).data = serValue v 0 := rfl
  unfold loads
  rw [hdata]
  have hskip : skipWs (serValue v 0) = serValue v 0 := by
    have := skipWs_serValue v 0 []
    simpa using this
  have hmain := ser_parseValue v ((serValue v 0).length + 1) 0 []
    (by have := jsize_le_len v 0; omega) h rfl
  rw [List.append_nil] at hmain
  rw [hskip, hmain]
  simp [skipWs]

/-- Assignment with a different key does not change membership of a key. -/
theorem keyMemO_setItem {q k : String} (h : q ≠ k) (ps : JsonObj) (v : Json) :
    keyMemO q (setItem ps k v) = keyMemO q ps := by
  induction ps using JsonObj.spineInd with
  | nil =>
      rw [setItem, keyMemO, keyMemO, if_neg (fun e => h e.symm)]
      rfl
  | cons k' v' ps ih =>
      rw [setItem]
      by_cases hk : k' = k
      · rw [if_pos hk, keyMemO, keyMemO]
      · rw [if_neg hk, keyMemO, keyMemO, ih]

/-- Assignment preserves distinctness of keys. -/
theorem keysOK_setItem {ps : JsonObj} (h : keysOK ps = true) (k : String) (v : Json) :
    keysOK (setItem ps k v) = true := by
  induction ps using JsonObj.spineInd with
  | nil => simp [setItem, keysOK, keyMemO]
  | cons k' v' ps ih =>
      rw [keysOK, Bool.and_eq_true, Bool.not_eq_true'] at h
      rw [setItem]
      by_cases hk : k' = k
      · rw [if_pos hk, keysOK, h.1]
        simp [h.2]
      · rw [if_neg hk, keysOK, keyMemO_setItem hk, h.1]
        simp [ih h.2]

/-- Folding members keeps the key set distinct. -/
theorem keysOK_pyDictGo (ps : JsonObj) : ∀ acc : JsonObj, keysOK acc = true →
    keysOK (pyDictGo acc ps) = true := by
  induction ps using JsonObj.spineInd with
  | nil => intro acc h; rw [pyDictGo]; exact h
  | cons k v ps ih =>
      intro acc h
      rw [pyDictGo]
      exact ih _ (keysOK_setItem h k v)

/-- `dict(pairs)` always has pairwise distinct keys. -/
theorem keysOK_pyDict (ps : JsonObj) : keysOK (pyDict ps) = true :=
  keysOK_pyDictGo ps .nil rfl

/-- Assignment of a duplicate-free value preserves duplicate-freeness of
the stored values. -/
theorem jNoDupO_setItem {ps : JsonObj} {v : Json} (h : jNoDupO ps = true)
    (hv : jNoDup v = true) (k : String) :
    jNoDupO (setItem ps k v) = true := by
  induction ps using JsonObj.spineInd with
  | nil => simp [setItem, jNoDupO, hv]
  | cons k' v' ps ih =>
      rw [jNoDupO, Bool.and_eq_true] at h
      rw [setItem]
      by_cases hk : k' = k
      · rw [if_pos hk, jNoDupO]
        simp [hv, h.2]
      · rw [if_neg hk, jNoDupO]
        simp [h.1, ih h.2]

/-- Folding duplicate-free members preserves duplicate-freeness of stored
values. -/
theorem jNoDupO_pyDictGo (ps : JsonObj) : ∀ acc : JsonObj, jNoDupO acc = true →
    jNoDupO ps = true → jNoDupO (pyDictGo acc ps) = true := by
  induction ps using JsonObj.spineInd with
  | nil => intro acc h _; rw [pyDictGo]; exact h
  | cons k v ps ih =>
      intro acc hacc hps
      rw [jNoDupO, Bool.and_eq_true] at hps
      rw [pyDictGo]
      exact ih _ (jNoDupO_setItem hacc hps.1 k) hps.2

/-- `dict(pairs)` of duplicate-free members is duplicate-free. -/
theorem jNoDupO_pyDict {ps : JsonObj} (h : jNoDupO ps = true) :
    jNoDupO (pyDict ps) = true :=
  jNoDupO_pyDictGo ps .nil rfl h

mutual

/-- Every value produced by the parser is duplicate-key-free: objects are
built by `pyDict` (dict insertion semantics), which cannot hold a key
twice. -/
theorem parseValue_noDup : ∀ (fuel : Nat) (cs : List Char) (v : Json) (r : List Char),
    parseValue fuel cs = some (v, r) → jNoDup v = true
  | 0, cs, v, r, h => by
      rw [show parseValue 0 cs = none from rfl] at h
      exact Option.noConfusion h
  | fuel + 1, [], v, r, h => by
      rw [show parseValue (fuel + 1) [] = none from rfl] at h
      exact Option.noConfusion h
  | fuel + 1, c :: cs, v, r, h => by
      rw [parseValue_step] at h
      repeat' split at h
      all_goals first
        | exact Option.noConfusion h
        | (cases h; simp [jNoDup, jNoDupL, jNoDupO, keysOK]; done)
        | (cases h
           simp only [jNoDup, jNoDupL, Bool.and_eq_true]
           exact ⟨parseValue_noDup fuel _ _ _ (by assumption),
             parseArrTail_noDup fuel _ _ _ (by assumption)⟩)
        | (cases h
           simp only [jNoDup, Bool.and_eq_true]
           refine ⟨keysOK_pyDict _, jNoDupO_pyDict ?_⟩
           simp only [jNoDupO, Bool.and_eq_true]
           exact ⟨parseValue_noDup fuel _ _ _ (by assumption),
             parseObjTail_noDup fuel _ _ _ (by assumption)⟩)

/-- Every array tail produced by the parser has duplicate-key-free
elements. -/
theorem parseArrTail_noDup : ∀ (fuel : Nat) (cs : List Char) (vs : JsonList) (r : List Char),
    parseArrTail fuel cs = some (vs, r) → jNoDupL vs = true
  | 0, cs, vs, r, h => by
      rw [show parseArrTail 0 cs = none from rfl] at h
      exact Option.noConfusion h
  | fuel + 1, cs, vs, r, h => by
      rw [parseArrTail_step] at h
      repeat' split at h
      all_goals first
        | exact Option.noConfusion h
        | (cases h; simp [jNoDupL]; done)
        | (cases h
           simp only [jNoDupL, Bool.and_eq_true]
           exact ⟨parseValue_noDup fuel _ _ _ (by assumption),
             parseArrTail_noDup fuel _ _ _ (by assumption)⟩)

/-- Every member sequence produced by the parser has duplicate-key-free
member values. -/
theorem parseObjTail_noDup : ∀ (fuel : Nat) (cs : List Char) (ps : JsonObj) (r : List Char),
    parseObjTail fuel cs = some (ps, r) → jNoDupO ps = true
  | 0, cs, ps, r, h => by
      rw [show parseObjTail 0 cs = none from rfl] at h
      exact Option.noConfusion h
  | fuel + 1, cs, ps, r, h => by
      rw [parseObjTail_step] at h
      repeat' split at h
      all_goals first
        | exact Option.noConfusion h
        | (cases h; simp [jNoDupO]; done)
        | (cases h
           simp only [jNoDupO, Bool.and_eq_true]
           exact ⟨parseValue_noDup fuel _ _ _ (by assumption),
             parseObjTail_noDup fuel _ _ _ (by assumption)⟩)

end

/-- Every value `json.loads` returns is duplicate-key-free. -/
theorem loads_noDup {s : String} {v : Json} (h : loads s = some v) : jNoDup v = true := by
  unfold loads at h
  split at h
  · split at h
    · cases h
      exact parseValue_noDup _ _ _ _ (by assumption)
    · exact Option.noConfusion h
  · exact Option.noConfusion h

/-- Reserializing and reparsing any parsed value is the identity. -/
theorem loads_dumps_of_loads {s : String} {v : Json} (h : loads s = some v) :
    loads (dumps v) = some v :=
  loads_dumps (loads_noDup h)

/-! ## The extraction schema `MOVIE_SCHEMA` (src/scraper.py lines 17-46) -/

/-- Field lookup in an object. -/
def lookupKey (k : String) : JsonObj → Option Json
  | .nil => none
  | .cons k' v ps => if k' = k then some v else lookupKey k ps

/-- The value is a STRING. -/
def isStr : Json → Bool
  | .str _ => true
  | _ => false

/-- The value is an INTEGER. -/
def isInt : Json → Bool
  | .num _ => true
  | _ => false

/-- Every element is a STRING. -/
def allStr : JsonList → Bool
  | .nil => true
  | .cons v vs => isStr v && allStr vs

/-- The value is an ARRAY of STRING. -/
def isStrArray : Json → Bool
  | .arr xs => allStr xs
  | _ => false

/-- The object has the required field with a STRING value. -/
def reqStr (k : String) (m : JsonObj) : Bool :=
  match lookupKey k m with
  | some v => isStr v
  | none => false

/-- A session record: required `id`, `startTime`, `screenName` (STRING),
`attributes` (ARRAY of STRING) and `bookingUrl` (STRING). -/
def sessionConforms (j : Json) : Bool :=
  match j with
  | .obj m =>
      reqStr "id" m && reqStr "startTime" m && reqStr "screenName" m &&
      (match lookupKey "attributes" m with
       | some v => isStrArray v
       | none => false) &&
      reqStr "bookingUrl" m
  | _ => false

/-- Every element is a conforming session. -/
def allSessions : JsonList → Bool
  | .nil => true
  | .cons v vs => sessionConforms v && allSessions vs

/-- A movie record: required `id`, `title`, `synopsis`, `rating`,
`posterUrl` (STRING), `runtime` (INTEGER) and `sessions` (ARRAY of
session records); `trailerUrl` is optional but typed STRING when
present. -/
def movieConforms (j : Json) : Bool :=
  match j with
  | .obj m =>
      reqStr "id" m && reqStr "title" m && reqStr "synopsis" m &&
      reqStr "rating" m &&
      (match lookupKey "runtime" m with
       | some v => isInt v
       | none => false) &&
      reqStr "posterUrl" m &&
      (match lookupKey "trailerUrl" m with
       | some v => isStr v
       | none => true) &&
      (match lookupKey "sessions" m with
       | some (.arr xs) => allSessions xs
       | _ => false)
  | _ => false

/-- Every element is a conforming movie. -/
def allMovies : JsonList → Bool
  | .nil => true
  | .cons v vs => movieConforms v && allMovies vs

/-- The schema `MOVIE_SCHEMA`: an ARRAY of movie records. -/
def conformsToMovieSchema : Json → Bool
  | .arr xs => allMovies xs
  | _ => false

/-! ## The scraper `fetch_and_process_movies` (src/scraper.py) -/

/-- The contents of the three files the two scripts touch:
`movies.json` (`OUTPUT_FILENAME` / `FINAL_OUTPUT_FILENAME`),
`movies_temp.json` (`TEMP_INPUT_FILENAME`) and `source_page.html`
(`SOURCE_HTML_FILENAME`); `none` means the file does not exist. -/
structure FS where
  movies : Option String
  moviesTemp : Option String
  sourcePage : Option String
deriving DecidableEq

/-- The outcome of one `model.generate_content(...)` followed by
`api_response.text`: either the raw candidate text, or a non-JSON-shape
failure (safety block, transport error) raised as an exception. -/
inductive ApiResult where
  | text (t : String)
  | err
deriving DecidableEq

/-- The candidate text of a successful call (empty for an error). -/
def ApiResult.getText : ApiResult → String
  | .text t => t
  | .err => ""

/-- The attempt produced text that fails `json.loads` — the retryable
failure of the self-correction loop. -/
def attemptInvalid : ApiResult → Bool
  | .text t => (loads t).isNone
  | .err => false

/-- The run's environment: whether `API_KEY` is set, the result of the
HTTP fetch (`none` = `requests.exceptions.RequestException`), and the
generative model as an attempt-indexed oracle (the model is
nondeterministic, so each attempt may answer differently). -/
structure ScraperEnv where
  apiKey : Bool
  fetch : Option String
  gen : Nat → ApiResult

/-- The exception (if any) that ended the run. -/
inductive RunErr where
  | noKey
  | fetchErr
  | modelErr
  | decodeErr (text : String)
deriving DecidableEq

/-- Observable outcome of one run: the boolean return value, the number
of `generate_content` calls made, the final failure reason, and the
filesystem after the run. -/
structure RunResult where
  ok : Bool
  calls : Nat
  err : Option RunErr
  fs : FS
deriving DecidableEq

/-- Lines 70-76: load the last known good data — `json.load` of
`movies.json`, `none` if the file is absent or does not parse. -/
def loadGood (fs : FS) : Option Json := fs.movies.bind loads

/-- Lines 113-114 (and fixer lines 75-76): the success-path write
`json.dump(parsed_json, f, indent=2, ensure_ascii=False)` to
`movies.json`. -/
def commit (fs : FS) (j : Json) : FS := { fs with movies := some (dumps j) }

/-- Lines 139-145: on critical failure, re-save the last known good data
— but only when `last_known_good_data` is truthy (`if last_known_good_data:`),
so Python-falsy values such as `[]` are not re-saved. -/
def restoreIfGood (lastGood : Option Json) (fs : FS) : FS :=
  match lastGood with
  | some j => if j.truthy then commit fs j else fs
  | none => fs

/-- `MAX_RETRIES = 2` in both scripts. -/
def MAX_RETRIES : Nat := 2

/-- The self-correction loop, lines 102-134: `attempt` is the current
0-based attempt index and `rem` the retries still allowed
(`rem = MAX_RETRIES - attempt`; the loop is entered with `attempt = 0`,
`rem = MAX_RETRIES`, so `MAX_RETRIES + 1` iterations at most, exactly
`for attempt in range(MAX_RETRIES + 1)`).  Each iteration makes one
`generate_content` call; a non-decode exception propagates to the outer
handler (restore-and-return-False); a parse success writes and returns
True; a parse failure retries while `attempt < MAX_RETRIES`, and on the
last attempt re-raises to the outer handler. -/
def scraperLoop (gen : Nat → ApiResult) (lastGood : Option Json) (fs : FS) :
    Nat → Nat → RunResult
  | attempt, rem =>
      match gen attempt with
      | .err => ⟨false, attempt + 1, some .modelErr, restoreIfGood lastGood fs⟩
      | .text t =>
          match loads t with
          | some j => ⟨true, attempt + 1, none, commit fs j⟩
          | none =>
              match rem with
              | rem' + 1 => scraperLoop gen lastGood fs (attempt + 1) rem'
              | 0 => ⟨false, attempt + 1, some (.decodeErr t), restoreIfGood lastGood fs⟩

/-- `fetch_and_process_movies` (src/scraper.py lines 58-146): missing
`API_KEY` returns False with no work; then the last known good data is
loaded; a fetch failure aborts before any extraction attempt; otherwise
the self-correction loop runs. -/
def fetch_and_process_movies (env : ScraperEnv) (fs : FS) : RunResult :=
  if env.apiKey = false then ⟨false, 0, some .noKey, fs⟩
  else
    match env.fetch with
    | none => ⟨false, 0, some .fetchErr, fs⟩
    | some _html => scraperLoop env.gen (loadGood fs) fs 0 MAX_RETRIES

/-! ## The fixer `fix_broken_json` (src/fixer.py) -/

/-- The fixer's environment: `API_KEY` presence and its own model
oracle. -/
structure FixerEnv where
  apiKey : Bool
  gen : Nat → ApiResult

/-- How a fixer invocation ended.  `crashed` is the uncaught
`FileNotFoundError` of `open(SOURCE_HTML_FILENAME)` when the trigger file
exists but the saved source page does not. -/
inductive FixerOutcome where
  | notNeeded
  | noKey
  | crashed
  | fixed
  | exhausted
  | apiErr
deriving DecidableEq

/-- Observable outcome of one fixer invocation. -/
structure FixerResult where
  outcome : FixerOutcome
  calls : Nat
  fs : FS
deriving DecidableEq

/-- The fixer's retry loop (src/fixer.py lines 64-104), same shape as the
scraper's: one model call per iteration; valid JSON is written to
`movies.json` and the function returns; invalid JSON retries up to
`MAX_RETRIES` extra attempts and then gives up; any other exception gives
up immediately.  No file is ever deleted. -/
def fixerLoop (gen : Nat → ApiResult) (fs : FS) : Nat → Nat → FixerResult
  | attempt, rem =>
      match gen attempt with
      | .err => ⟨.apiErr, attempt + 1, fs⟩
      | .text t =>
          match loads t with
          | some j => ⟨.fixed, attempt + 1, commit fs j⟩
          | none =>
              match rem with
              | rem' + 1 => fixerLoop gen fs (attempt + 1) rem'
              | 0 => ⟨.exhausted, attempt + 1, fs⟩

/-- `fix_broken_json` (src/fixer.py lines 20-104): returns immediately
when `movies_temp.json` does not exist ("Scraper likely succeeded"); then
checks `API_KEY`; then reads `movies_temp.json` and `source_page.html`
(the latter raises an uncaught `FileNotFoundError` when absent); then
runs the retry loop. -/
def fix_broken_json (env : FixerEnv) (fs : FS) : FixerResult :=
  match fs.moviesTemp with
  | none => ⟨.notNeeded, 0, fs⟩
  | some _brokenText =>
      if env.apiKey = false then ⟨.noKey, 0, fs⟩
      else
        match fs.sourcePage with
        | none => ⟨.crashed, 0, fs⟩
        | some _src => fixerLoop env.gen fs 0 MAX_RETRIES

/-- The success-path write of `commit` interrupted after `budget`
characters: `open(OUTPUT_FILENAME, 'w')` truncates `movies.json` first,
then `json.dump` streams the serialization in place, so a failure mid-way
leaves exactly the written prefix. -/
def commitInterrupted (fs : FS) (j : Json) (budget : Nat) : FS :=
  { fs with movies := some (String.mk ((serValue j 0).take budget)) }

/-- An invalid attempt is a text answer that fails to parse. -/
theorem attemptInvalid_elim {a : ApiResult} (h : attemptInvalid a = true) :
    ∃ t, a = .text t ∧ loads t = none := by
  cases a with
  | text t =>
      refine ⟨t, rfl, ?_⟩
      rw [attemptInvalid] at h
      exact Option.isNone_iff_eq_none.mp h
  | err => rw [attemptInvalid] at h; exact absurd h (by simp)

/-- If every attempt before the `n`-th fails to parse and the `n`-th
parses, the loop returns success after exactly `n + 1` calls and commits
the parsed value. -/
theorem scraperLoop_success (gen : Nat → ApiResult) (lastGood : Option Json) (fs : FS) :
    ∀ (n attempt rem : Nat) (t : String) (j : Json),
    (∀ i, i < n → attemptInvalid (gen (attempt + i)) = true) →
    gen (attempt + n) = .text t → loads t = some j → n ≤ rem →
    scraperLoop gen lastGood fs attempt rem = ⟨true, attempt + n + 1, none, commit fs j⟩ := by
  intro n
  induction n with
  | zero =>
      intro attempt rem t j _ hgen hj _
      rw [Nat.add_zero] at hgen
      rw [scraperLoop, hgen]
      simp [hj]
  | succ n ih =>
      intro attempt rem t j hprev hgen hj hle
      obtain ⟨t0, hga, ht0⟩ := attemptInvalid_elim (hprev 0 (by omega))
      rw [Nat.add_zero] at hga
      obtain ⟨rem', rfl⟩ : ∃ r, rem = r + 1 := ⟨rem - 1, by omega⟩
      rw [scraperLoop, hga]
      simp only [ht0]
      have := ih (attempt + 1) rem' t j
        (fun i hi => by
          have := hprev (i + 1) (by omega)
          rwa [show attempt + (i + 1) = attempt + 1 + i from by omega] at this)
        (by rwa [show attempt + 1 + n = attempt + (n + 1) from by omega])
        hj (by omega)
      rw [this]
      congr 1
      omega

/-- If every attempt through the whole budget fails to parse, the loop
returns failure after exactly `rem + 1` calls, surfaces the last decode
error, and runs the restore path. -/
theorem scraperLoop_exhausted (gen : Nat → ApiResult) (lastGood : Option Json) (fs : FS) :
    ∀ (rem attempt : Nat),
    (∀ i, i ≤ rem → attemptInvalid (gen (attempt + i)) = true) →
    scraperLoop gen lastGood fs attempt rem =
      ⟨false, attempt + rem + 1, some (.decodeErr ((gen (attempt + rem)).getText)),
        restoreIfGood lastGood fs⟩ := by
  intro rem
  induction rem with
  | zero =>
      intro attempt hall
      obtain ⟨t0, hga, ht0⟩ := attemptInvalid_elim (hall 0 (by omega))
      rw [Nat.add_zero] at hga
      rw [scraperLoop, hga]
      simp [ht0, hga, ApiResult.getText]
  | succ rem ih =>
      intro attempt hall
      obtain ⟨t0, hga, ht0⟩ := attemptInvalid_elim (hall 0 (by omega))
      rw [Nat.add_zero] at hga
      rw [scraperLoop, hga]
      simp only [ht0]
      have := ih (attempt + 1)
        (fun i hi => by
          have := hall (i + 1) (by omega)
          rwa [show attempt + (i + 1) = attempt + 1 + i from by omega] at this)
      rw [this]
      have h1 : attempt + 1 + rem = attempt + (rem + 1) := by omega
      rw [h1]

/-- A model-level exception at the `m`-th attempt (after `m` parse
failures) ends the loop immediately: exactly `m + 1` calls, failure, and
the restore path. -/
theorem scraperLoop_modelErr (gen : Nat → ApiResult) (lastGood : Option Json) (fs : FS) :
    ∀ (m attempt rem : Nat),
    (∀ i, i < m → attemptInvalid (gen (attempt + i)) = true) →
    gen (attempt + m) = .err → m ≤ rem →
    scraperLoop gen lastGood fs attempt rem =
      ⟨false, attempt + m + 1, some .modelErr, restoreIfGood lastGood fs⟩ := by
  intro m
  induction m with
  | zero =>
      intro attempt rem _ hgen _
      rw [Nat.add_zero] at hgen
      rw [scraperLoop, hgen]
  | succ m ih =>
      intro attempt rem hprev hgen hle
      obtain ⟨t0, hga, ht0⟩ := attemptInvalid_elim (hprev 0 (by omega))
      rw [Nat.add_zero] at hga
      obtain ⟨rem', rfl⟩ : ∃ r, rem = r + 1 := ⟨rem - 1, by omega⟩
      rw [scraperLoop, hga]
      simp only [ht0]
      have := ih (attempt + 1) rem'
        (fun i hi => by
          have := hprev (i + 1) (by omega)
          rwa [show attempt + (i + 1) = attempt + 1 + i from by omega] at this)
        (by rwa [show attempt + 1 + m = attempt + (m + 1) from by omega])
        (by omega)
      rw [this]
      congr 1
      omega

/-- The restore path touches only `movies.json`. -/
theorem restoreIfGood_frame (lastGood : Option Json) (fs : FS) :
    (restoreIfGood lastGood fs).moviesTemp = fs.moviesTemp ∧
    (restoreIfGood lastGood fs).sourcePage = fs.sourcePage := by
  cases lastGood with
  | none => exact ⟨rfl, rfl⟩
  | some j =>
      rw [restoreIfGood]
      by_cases h : j.truthy <;> simp [h, commit]

/-- The self-correction loop never writes `movies_temp.json` or
`source_page.html`. -/
theorem scraperLoop_frame (gen : Nat → ApiResult) (lastGood : Option Json) (fs : FS) :
    ∀ (rem attempt : Nat),
    (scraperLoop gen lastGood fs attempt rem).fs.moviesTemp = fs.moviesTemp ∧
    (scraperLoop gen lastGood fs attempt rem).fs.sourcePage = fs.sourcePage := by
  intro rem
  induction rem with
  | zero =>
      intro attempt
      rw [scraperLoop]
      cases hga : gen attempt with
      | err => exact restoreIfGood_frame lastGood fs
      | text t =>
          cases hlt : loads t with
          | some j => simp [hlt, commit]
          | none =>
              simp only [hlt]
              exact restoreIfGood_frame lastGood fs
  | succ rem ih =>
      intro attempt
      rw [scraperLoop]
      cases hga : gen attempt with
      | err => exact restoreIfGood_frame lastGood fs
      | text t =>
          cases hlt : loads t with
          | some j => simp [hlt, commit]
          | none =>
              simp only [hlt]
              exact ih (attempt + 1)

/-- The whole run never writes `movies_temp.json` or `source_page.html`
— in particular, a failing run leaves no intermediate artifacts behind. -/
theorem run_frame (env : ScraperEnv) (fs : FS) :
    (fetch_and_process_movies env fs).fs.moviesTemp = fs.moviesTemp ∧
    (fetch_and_process_movies env fs).fs.sourcePage = fs.sourcePage := by
  rw [fetch_and_process_movies]
  split
  · exact ⟨rfl, rfl⟩
  · split
    · exact ⟨rfl, rfl⟩
    · exact scraperLoop_frame env.gen (loadGood fs) fs MAX_RETRIES 0

/-- The fixer loop never writes `movies_temp.json` or
`source_page.html`. -/
theorem fixerLoop_frame (gen : Nat → ApiResult) (fs : FS) :
    ∀ (rem attempt : Nat),
    (fixerLoop gen fs attempt rem).fs.moviesTemp = fs.moviesTemp ∧
    (fixerLoop gen fs attempt rem).fs.sourcePage = fs.sourcePage := by
  intro rem
  induction rem with
  | zero =>
      intro attempt
      rw [fixerLoop]
      cases hga : gen attempt with
      | err => exact ⟨rfl, rfl⟩
      | text t =>
          cases hlt : loads t with
          | some j => simp [hlt, commit]
          | none => simp [hlt]
  | succ rem ih =>
      intro attempt
      rw [fixerLoop]
      cases hga : gen attempt with
      | err => exact ⟨rfl, rfl⟩
      | text t =>
          cases hlt : loads t with
          | some j => simp [hlt, commit]
          | none =>
              simp only [hlt]
              exact ih (attempt + 1)

/-- The fixer never writes `movies_temp.json` or `source_page.html` on
any outcome. -/
theorem fixer_frame (env : FixerEnv) (fs : FS) :
    (fix_broken_json env fs).fs.moviesTemp = fs.moviesTemp ∧
    (fix_broken_json env fs).fs.sourcePage = fs.sourcePage := by
  rw [fix_broken_json]
  split
  · exact ⟨rfl, rfl⟩
  · split
    · exact ⟨rfl, rfl⟩
    · split
      · exact ⟨rfl, rfl⟩
      · exact fixerLoop_frame env.gen fs MAX_RETRIES 0

/-! ## Run-level helper lemmas -/

/-- With the key set and a successful fetch, the run is the
self-correction loop started at attempt 0 with `MAX_RETRIES` retries
left. -/
theorem run_eq_loop (env : ScraperEnv) (fs : FS) (hkey : env.apiKey = true)
    {html : String} (hf : env.fetch = some html) :
    fetch_and_process_movies env fs =
      scraperLoop env.gen (loadGood fs) fs 0 MAX_RETRIES := by
  rw [fetch_and_process_movies, hf, hkey]
  rfl

/-- A fetch failure aborts the run before any extraction attempt. -/
theorem run_eq_fetchErr (env : ScraperEnv) (fs : FS) (hkey : env.apiKey = true)
    (hf : env.fetch = none) :
    fetch_and_process_movies env fs = ⟨false, 0, some .fetchErr, fs⟩ := by
  rw [fetch_and_process_movies, hf, hkey]
  rfl

/-- The value is a JSON ARRAY. -/
def Json.isArray : Json → Bool
  | .arr _ => true
  | _ => false

/-- The fixer loop never reports `notNeeded`. -/
theorem fixerLoop_ne_notNeeded (gen : Nat → ApiResult) (fs : FS) :
    ∀ (rem attempt : Nat), (fixerLoop gen fs attempt rem).outcome ≠ .notNeeded := by
  intro rem
  induction rem with
  | zero =>
      intro attempt
      rw [fixerLoop]
      cases hga : gen attempt with
      | err => simp
      | text t =>
          cases hlt : loads t with
          | some j => simp [hlt]
          | none => simp [hlt]
  | succ rem ih =>
      intro attempt
      rw [fixerLoop]
      cases hga : gen attempt with
      | err => simp
      | text t =>
          cases hlt : loads t with
          | some j => simp [hlt]
          | none =>
              simp only [hlt]
              exact ih (attempt + 1)

/-- When the trigger file is absent the fixer does nothing. -/
theorem fix_broken_json_notNeeded (env : FixerEnv) (fs : FS)
    (h : fs.moviesTemp = none) :
    fix_broken_json env fs = ⟨.notNeeded, 0, fs⟩ := by
  rw [fix_broken_json, h]

/-- When the trigger file is present the fixer activates: it never
reports `notNeeded`. -/
theorem fix_activates (env : FixerEnv) (fs : FS) {t : String}
    (h : fs.moviesTemp = some t) :
    (fix_broken_json env fs).outcome ≠ FixerOutcome.notNeeded := by
  rw [fix_broken_json, h]
  by_cases hk : env.apiKey = false
  · simp [hk]
  · simp only [hk, if_false]
    cases hsp : fs.sourcePage with
    | none => simp
    | some src => exact fixerLoop_ne_notNeeded env.gen fs MAX_RETRIES 0

/-! ## The claims -/

/-- C1: when every candidate output fails validation, the self-correction
loop terminates in the exhausted state (the run returns False) after
exactly MAX_RETRIES + 1 = 3 extraction calls, never more, and the last
attempt's decode error is surfaced as the final failure reason. -/
theorem claim_C1_exhausted_three_calls (env : ScraperEnv) (fs : FS)
    (hkey : env.apiKey = true) (hfetch : env.fetch.isSome = true)
    (hall : ∀ i, i ≤ MAX_RETRIES → attemptInvalid (env.gen i) = true) :
    (fetch_and_process_movies env fs).ok = false ∧
    (fetch_and_process_movies env fs).calls = MAX_RETRIES + 1 ∧
    (fetch_and_process_movies env fs).calls = 3 ∧
    (fetch_and_process_movies env fs).err =
      some (RunErr.decodeErr ((env.gen MAX_RETRIES).getText)) := by
  obtain ⟨html, hf⟩ := Option.isSome_iff_exists.mp hfetch
  rw [run_eq_loop env fs hkey hf,
    scraperLoop_exhausted env.gen (loadGood fs) fs MAX_RETRIES 0
      (fun i hi => by simpa using hall i hi)]
  exact ⟨rfl, rfl, rfl, rfl⟩

/-- C1 witness: a concrete run whose three candidates are all invalid. -/
theorem claim_C1_witness :
    (fetch_and_process_movies ⟨true, some "<html>", fun _ => .text "not json at all"⟩
        ⟨none, none, none⟩).ok = false ∧
    (fetch_and_process_movies ⟨true, some "<html>", fun _ => .text "not json at all"⟩
        ⟨none, none, none⟩).calls = MAX_RETRIES + 1 ∧
    (fetch_and_process_movies ⟨true, some "<html>", fun _ => .text "not json at all"⟩
        ⟨none, none, none⟩).calls = 3 ∧
    (fetch_and_process_movies ⟨true, some "<html>", fun _ => .text "not json at all"⟩
        ⟨none, none, none⟩).err =
      some (RunErr.decodeErr (((fun _ => ApiResult.text "not json at all") MAX_RETRIES).getText)) :=
  claim_C1_exhausted_three_calls ⟨true, some "<html>", fun _ => .text "not json at all"⟩
    ⟨none, none, none⟩ rfl rfl
    (fun i _ => by show attemptInvalid (.text "not json at all") = true; decide)

/-- C5: if every candidate before the (N+1)-th is invalid and the
(N+1)-th parses, the loop succeeds after exactly N + 1 extraction calls
and persists the serialization of the parsed result. -/
theorem claim_C5_success_after_n (env : ScraperEnv) (fs : FS) (N : Nat) (t : String) (j : Json)
    (hkey : env.apiKey = true) (hfetch : env.fetch.isSome = true)
    (hN : N ≤ MAX_RETRIES)
    (hbefore : ∀ i, i < N → attemptInvalid (env.gen i) = true)
    (hgen : env.gen N = .text t) (hj : loads t = some j) :
    (fetch_and_process_movies env fs).ok = true ∧
    (fetch_and_process_movies env fs).calls = N + 1 ∧
    (fetch_and_process_movies env fs).fs.movies = some (dumps j) := by
  obtain ⟨html, hf⟩ := Option.isSome_iff_exists.mp hfetch
  rw [run_eq_loop env fs hkey hf,
    scraperLoop_success env.gen (loadGood fs) fs N 0 MAX_RETRIES t j
      (fun i hi => by simpa using hbefore i hi)
      (by simpa using hgen) hj hN]
  refine ⟨rfl, by simp, rfl⟩

/-- C5 witness: the first candidate is invalid, the second parses as the
empty array; the run succeeds with exactly two calls. -/
theorem claim_C5_witness :
    (fetch_and_process_movies
        ⟨true, some "<html>", fun k => if k = 0 then .text "nope" else .text "[]"⟩
        ⟨none, none, none⟩).ok = true ∧
    (fetch_and_process_movies
        ⟨true, some "<html>", fun k => if k = 0 then .text "nope" else .text "[]"⟩
        ⟨none, none, none⟩).calls = 1 + 1 ∧
    (fetch_and_process_movies
        ⟨true, some "<html>", fun k => if k = 0 then .text "nope" else .text "[]"⟩
        ⟨none, none, none⟩).fs.movies = some (dumps (Json.arr JsonList.nil)) :=
  claim_C5_success_after_n
    ⟨true, some "<html>", fun k => if k = 0 then .text "nope" else .text "[]"⟩
    ⟨none, none, none⟩ 1 "[]" (Json.arr JsonList.nil) rfl rfl (by decide)
    (fun i hi => by interval_cases i; decide) (by decide) (by decide)

/-- C2: a run that starts with a pre-existing good output and exhausts
all attempts on invalid candidates returns False and leaves the durable
output structurally equal to the pre-existing good value — either
untouched or explicitly re-serialized, never empty and never partial. -/
theorem claim_C2_fallback (env : ScraperEnv) (fs : FS) (s : String) (j : Json)
    (hkey : env.apiKey = true) (hfetch : env.fetch.isSome = true)
    (hgood : fs.movies = some s) (hj : loads s = some j)
    (hall : ∀ i, i ≤ MAX_RETRIES → attemptInvalid (env.gen i) = true) :
    (fetch_and_process_movies env fs).ok = false ∧
    ∃ s', (fetch_and_process_movies env fs).fs.movies = some s' ∧ loads s' = some j := by
  obtain ⟨html, hf⟩ := Option.isSome_iff_exists.mp hfetch
  rw [run_eq_loop env fs hkey hf,
    scraperLoop_exhausted env.gen (loadGood fs) fs MAX_RETRIES 0
      (fun i hi => by simpa using hall i hi)]
  have hlg : loadGood fs = some j := by rw [loadGood, hgood]; exact hj
  refine ⟨rfl, ?_⟩
  show ∃ s', (restoreIfGood (loadGood fs) fs).movies = some s' ∧ loads s' = some j
  rw [hlg, restoreIfGood]
  by_cases ht : j.truthy
  · rw [if_pos ht]
    exact ⟨dumps j, rfl, loads_dumps_of_loads hj⟩
  · rw [if_neg ht]
    exact ⟨s, hgood, hj⟩

/-- C2 witness: the good file holds `[1]`; all three candidates are
invalid; afterwards the durable output still parses to `[1]`. -/
theorem claim_C2_witness :
    (fetch_and_process_movies ⟨true, some "<html>", fun _ => .text "oops"⟩
        ⟨some "[\n  1\n]", none, none⟩).ok = false ∧
    ∃ s', (fetch_and_process_movies ⟨true, some "<html>", fun _ => .text "oops"⟩
        ⟨some "[\n  1\n]", none, none⟩).fs.movies = some s' ∧
      loads s' = some (Json.arr (JsonList.cons (Json.num 1) JsonList.nil)) :=
  claim_C2_fallback ⟨true, some "<html>", fun _ => .text "oops"⟩
    ⟨some "[\n  1\n]", none, none⟩ "[\n  1\n]"
    (Json.arr (JsonList.cons (Json.num 1) JsonList.nil))
    rfl rfl rfl (by decide) (fun i _ => by show attemptInvalid (.text "oops") = true; decide)

/-- C6: a fetch failure aborts the run with zero extraction calls, and a
model-level error (safety block, transport failure) at any attempt ends
the loop immediately with no further calls — it never triggers another
extraction attempt. -/
theorem claim_C6_fatal_short_circuit (env : ScraperEnv) (fs : FS) (m : Nat)
    (hkey : env.apiKey = true) :
    (env.fetch = none →
      fetch_and_process_movies env fs = ⟨false, 0, some .fetchErr, fs⟩) ∧
    (env.fetch.isSome = true → m ≤ MAX_RETRIES →
      (∀ i, i < m → attemptInvalid (env.gen i) = true) → env.gen m = .err →
      (fetch_and_process_movies env fs).ok = false ∧
      (fetch_and_process_movies env fs).calls = m + 1 ∧
      (fetch_and_process_movies env fs).err = some RunErr.modelErr) := by
  constructor
  · intro hf
    exact run_eq_fetchErr env fs hkey hf
  · intro hfetch hm hprev hgen
    obtain ⟨html, hf⟩ := Option.isSome_iff_exists.mp hfetch
    rw [run_eq_loop env fs hkey hf,
      scraperLoop_modelErr env.gen (loadGood fs) fs m 0 MAX_RETRIES
        (fun i hi => by simpa using hprev i hi)
        (by simpa using hgen) hm]
    exact ⟨rfl, by simp, rfl⟩

/-- C6 witness: a run with a failed fetch makes zero calls; a run whose
first attempt raises a model error makes exactly one call and fails. -/
theorem claim_C6_witness :
    (fetch_and_process_movies ⟨true, none, fun _ => .text "[]"⟩ ⟨none, none, none⟩ =
      ⟨false, 0, some .fetchErr, ⟨none, none, none⟩⟩) ∧
    ((fetch_and_process_movies ⟨true, some "<html>", fun _ => .err⟩ ⟨none, none, none⟩).ok
        = false ∧
      (fetch_and_process_movies ⟨true, some "<html>", fun _ => .err⟩
        ⟨none, none, none⟩).calls = 0 + 1 ∧
      (fetch_and_process_movies ⟨true, some "<html>", fun _ => .err⟩
        ⟨none, none, none⟩).err = some RunErr.modelErr) :=
  ⟨(claim_C6_fatal_short_circuit ⟨true, none, fun _ => .text "[]"⟩ ⟨none, none, none⟩ 0
      rfl).1 rfl,
   (claim_C6_fatal_short_circuit ⟨true, some "<html>", fun _ => .err⟩ ⟨none, none, none⟩ 0
      rfl).2 rfl (by decide) (fun i hi => absurd hi (by omega)) rfl⟩

/-- C3 counterexample: the candidate text `{"title": "X"}` is
syntactically valid JSON but lacks the required array wrapper and fields
(`conformsToMovieSchema` is false), yet the run accepts it on the very
first attempt — one extraction call, success, and the non-conforming
value persisted — instead of returning a schema error and retrying.  The
code's only validator is `json.loads`; no schema pass exists. -/
theorem claim_C3_counterexample :
    loads "\x7b\"title\": \"X\"\x7d" =
      some (Json.obj (JsonObj.cons "title" (Json.str "X") JsonObj.nil)) ∧
    conformsToMovieSchema (Json.obj (JsonObj.cons "title" (Json.str "X") JsonObj.nil)) =
      false ∧
    fetch_and_process_movies
        ⟨true, some "<html>", fun _ => .text "\x7b\"title\": \"X\"\x7d"⟩
        ⟨none, none, none⟩ =
      ⟨true, 1, none, ⟨some "\x7b\n  \"title\": \"X\"\n\x7d", none, none⟩⟩ :=
  ⟨by decide, by decide, by decide⟩

/-- C3 amended: any candidate that parses as syntactically valid JSON is
accepted and persisted immediately — even when it does not conform to
the extraction schema — with exactly one extraction call and no retry;
there is no schema validation pass and no distinct schema-error kind. -/
theorem claim_C3_amended_accepts_nonconforming (env : ScraperEnv) (fs : FS)
    (t : String) (j : Json)
    (hkey : env.apiKey = true) (hfetch : env.fetch.isSome = true)
    (hgen : env.gen 0 = .text t) (hj : loads t = some j)
    (hnc : conformsToMovieSchema j = false) :
    (fetch_and_process_movies env fs).ok = true ∧
    (fetch_and_process_movies env fs).calls = 1 ∧
    (fetch_and_process_movies env fs).err = none ∧
    (fetch_and_process_movies env fs).fs.movies = some (dumps j) := by
  obtain ⟨html, hf⟩ := Option.isSome_iff_exists.mp hfetch
  rw [run_eq_loop env fs hkey hf,
    scraperLoop_success env.gen (loadGood fs) fs 0 0 MAX_RETRIES t j
      (fun i hi => absurd hi (by omega)) (by simpa using hgen) hj (by decide)]
  exact ⟨rfl, rfl, rfl, rfl⟩

/-- C3 amended witness: the schema-nonconforming `{"title": "X"}` is
accepted and persisted with one call. -/
theorem claim_C3_amended_witness :
    (fetch_and_process_movies
        ⟨true, some "<html>", fun _ => .text "\x7b\"title\": \"X\"\x7d"⟩
        ⟨none, none, none⟩).ok = true ∧
    (fetch_and_process_movies
        ⟨true, some "<html>", fun _ => .text "\x7b\"title\": \"X\"\x7d"⟩
        ⟨none, none, none⟩).calls = 1 ∧
    (fetch_and_process_movies
        ⟨true, some "<html>", fun _ => .text "\x7b\"title\": \"X\"\x7d"⟩
        ⟨none, none, none⟩).err = none ∧
    (fetch_and_process_movies
        ⟨true, some "<html>", fun _ => .text "\x7b\"title\": \"X\"\x7d"⟩
        ⟨none, none, none⟩).fs.movies =
      some (dumps (Json.obj (JsonObj.cons "title" (Json.str "X") JsonObj.nil))) :=
  claim_C3_amended_accepts_nonconforming
    ⟨true, some "<html>", fun _ => .text "\x7b\"title\": \"X\"\x7d"⟩
    ⟨none, none, none⟩ "\x7b\"title\": \"X\"\x7d"
    (Json.obj (JsonObj.cons "title" (Json.str "X") JsonObj.nil))
    rfl rfl rfl (by decide) (by decide)

/-- C4: a primary run that ends in total failure of the correction loop
persists no intermediate artifacts: `movies_temp.json` and
`source_page.html` remain absent, so the Fixer Path — whose trigger is
exactly `movies_temp.json` — reports it is not needed and makes no model
call.  This contradicts the documented contract (fixer.py's own check
"No temp file found. Scraper likely succeeded."): the scraper writes
neither file anywhere. -/
theorem claim_C4_no_artifacts_written :
    (fetch_and_process_movies ⟨true, some "<html>", fun _ => .text "not json at all"⟩
        ⟨none, none, none⟩).ok = false ∧
    (fetch_and_process_movies ⟨true, some "<html>", fun _ => .text "not json at all"⟩
        ⟨none, none, none⟩).fs.moviesTemp = none ∧
    (fetch_and_process_movies ⟨true, some "<html>", fun _ => .text "not json at all"⟩
        ⟨none, none, none⟩).fs.sourcePage = none ∧
    fix_broken_json ⟨true, fun _ => .text "[]"⟩
        (fetch_and_process_movies ⟨true, some "<html>", fun _ => .text "not json at all"⟩
          ⟨none, none, none⟩).fs =
      ⟨.notNeeded, 0,
        (fetch_and_process_movies ⟨true, some "<html>", fun _ => .text "not json at all"⟩
          ⟨none, none, none⟩).fs⟩ :=
  ⟨by decide, by decide, by decide, by decide⟩

/-- C7 counterexample: the good slot holds the serialization of `[1]`;
committing `[2]` with a write failure after one character leaves the slot
holding `"["` — not the old content, not the new serialization, and no
longer parseable.  The old content is partially overwritten. -/
theorem claim_C7_counterexample :
    (commitInterrupted ⟨some "[\n  1\n]", none, none⟩
        (Json.arr (JsonList.cons (Json.num 2) JsonList.nil)) 1).movies = some "[" ∧
    some "[" ≠ (some "[\n  1\n]" : Option String) ∧
    "[" ≠ dumps (Json.arr (JsonList.cons (Json.num 2) JsonList.nil)) ∧
    loads "[" = none :=
  ⟨by decide, by decide, by decide, by decide⟩

/-- C7 amended: the commit is not atomic.  It truncates `movies.json` and
streams the new serialization in place, so a write that fails after `k`
characters leaves the slot holding exactly the first `k` characters of
the new serialization; whenever that prefix differs from the old content
and the failure is mid-way, the slot matches neither the old nor the new
content. -/
theorem claim_C7_amended_not_atomic (fs : FS) (oldContent : String) (j : Json) (k : Nat)
    (hold : fs.movies = some oldContent)
    (hk : k < (dumps j).length)
    (hne : String.mk ((serValue j 0).take k) ≠ oldContent) :
    (commitInterrupted fs j k).movies ≠ some oldContent ∧
    (commitInterrupted fs j k).movies ≠ some (dumps j) ∧
    (commitInterrupted fs j k).movies = some (String.mk ((serValue j 0).take k)) := by
  refine ⟨?_, ?_, rfl⟩
  · intro h
    rw [commitInterrupted] at h
    exact hne (Option.some_injective _ (by simpa using h))
  · intro h
    rw [commitInterrupted] at h
    have hs : String.mk ((serValue j 0).take k) = dumps j :=
      Option.some_injective _ (by simpa using h)
    have hlen : ((serValue j 0).take k).length = (serValue j 0).length := by
      have := congrArg (fun s : String => s.data.length) hs
      simpa [dumps] using this
    rw [List.length_take] at hlen
    have : (dumps j).length = (serValue j 0).length := rfl
    omega

/-- C7 amended witness: the concrete mid-way failure of the
counterexample satisfies the amended statement. -/
theorem claim_C7_amended_witness :
    (commitInterrupted ⟨some "[\n  1\n]", none, none⟩
        (Json.arr (JsonList.cons (Json.num 2) JsonList.nil)) 1).movies ≠
      some "[\n  1\n]" ∧
    (commitInterrupted ⟨some "[\n  1\n]", none, none⟩
        (Json.arr (JsonList.cons (Json.num 2) JsonList.nil)) 1).movies ≠
      some (dumps (Json.arr (JsonList.cons (Json.num 2) JsonList.nil))) ∧
    (commitInterrupted ⟨some "[\n  1\n]", none, none⟩
        (Json.arr (JsonList.cons (Json.num 2) JsonList.nil)) 1).movies =
      some (String.mk ((serValue (Json.arr (JsonList.cons (Json.num 2) JsonList.nil)) 0).take 1)) :=
  claim_C7_amended_not_atomic ⟨some "[\n  1\n]", none, none⟩ "[\n  1\n]"
    (Json.arr (JsonList.cons (Json.num 2) JsonList.nil)) 1 rfl (by decide) (by decide)

/-- C8 counterexample: the model returns the candidate text `42`, which
parses as a JSON number; the run succeeds and persists `42` — a
non-array JSON value — as the whole output file. -/
theorem claim_C8_counterexample :
    fetch_and_process_movies ⟨true, some "<html>", fun _ => .text "42"⟩
        ⟨none, none, none⟩ =
      ⟨true, 1, none, ⟨some "42", none, none⟩⟩ ∧
    loads "42" = some (Json.num 42) ∧
    Json.isArray (Json.num 42) = false ∧
    conformsToMovieSchema (Json.num 42) = false :=
  ⟨by decide, by decide, by decide, by decide⟩

/-- C8 amended: on every successful run the output file is rewritten
wholesale with exactly the indent-2 serialization of the parsed value —
the same content regardless of what the file held before — but that
value is whatever JSON value the model's accepted candidate parsed to,
not necessarily an array. -/
theorem claim_C8_amended_wholesale (env : ScraperEnv) (fs fs' : FS) (N : Nat)
    (t : String) (j : Json)
    (hkey : env.apiKey = true) (hfetch : env.fetch.isSome = true)
    (hN : N ≤ MAX_RETRIES)
    (hbefore : ∀ i, i < N → attemptInvalid (env.gen i) = true)
    (hgen : env.gen N = .text t) (hj : loads t = some j) :
    (fetch_and_process_movies env fs).fs.movies = some (dumps j) ∧
    (fetch_and_process_movies env fs).fs.movies =
      (fetch_and_process_movies env fs').fs.movies := by
  have run : ∀ fs0 : FS, (fetch_and_process_movies env fs0).fs.movies = some (dumps j) := by
    intro fs0
    obtain ⟨html, hf⟩ := Option.isSome_iff_exists.mp hfetch
    rw [run_eq_loop env fs0 hkey hf,
      scraperLoop_success env.gen (loadGood fs0) fs0 N 0 MAX_RETRIES t j
        (fun i hi => by simpa using hbefore i hi) (by simpa using hgen) hj hN]
    rfl
  exact ⟨run fs, (run fs).trans (run fs').symm⟩

/-- C8 amended witness: two runs with the same oracle but different prior
file contents persist the same serialized output. -/
theorem claim_C8_amended_witness :
    (fetch_and_process_movies ⟨true, some "<html>", fun _ => .text "42"⟩
        ⟨some "old stuff", none, none⟩).fs.movies = some (dumps (Json.num 42)) ∧
    (fetch_and_process_movies ⟨true, some "<html>", fun _ => .text "42"⟩
        ⟨some "old stuff", none, none⟩).fs.movies =
      (fetch_and_process_movies ⟨true, some "<html>", fun _ => .text "42"⟩
        ⟨none, none, none⟩).fs.movies :=
  claim_C8_amended_wholesale ⟨true, some "<html>", fun _ => .text "42"⟩
    ⟨some "old stuff", none, none⟩ ⟨none, none, none⟩ 0 "42" (Json.num 42)
    rfl rfl (by decide) (fun i hi => absurd hi (by omega)) rfl (by decide)

/-- C9: round trip through the persistence manager — committing any
parsed value (a `ValidatedOutput`, i.e. any value `json.loads` can
produce) and reloading it at the next run start as the last known good
data yields a value structurally equal to the original. -/
theorem claim_C9_roundtrip (fs : FS) (s : String) (v : Json)
    (hv : loads s = some v) :
    loadGood (commit fs v) = some v := by
  show (some (dumps v)).bind loads = some v
  rw [Option.some_bind]
  exact loads_dumps_of_loads hv

/-- C9 witness: the object `{"a": 1}` survives the commit/reload round
trip. -/
theorem claim_C9_witness :
    loadGood (commit ⟨none, none, none⟩
      (Json.obj (JsonObj.cons "a" (Json.num 1) JsonObj.nil))) =
      some (Json.obj (JsonObj.cons "a" (Json.num 1) JsonObj.nil)) :=
  claim_C9_roundtrip ⟨none, none, none⟩ "\x7b\"a\": 1\x7d"
    (Json.obj (JsonObj.cons "a" (Json.num 1) JsonObj.nil)) (by decide)

/-- C10: the fixer never deletes or modifies `movies_temp.json` or
`source_page.html` on any outcome, success included; hence after a
successful repair the trigger file is still on disk and any subsequent
fixer invocation activates again (it never reports `notNeeded`). -/
theorem claim_C10_fixer_leaves_trigger (envA envB : FixerEnv) (fs : FS) :
    (fix_broken_json envA fs).fs.moviesTemp = fs.moviesTemp ∧
    (fix_broken_json envA fs).fs.sourcePage = fs.sourcePage ∧
    ((fix_broken_json envA fs).outcome = FixerOutcome.fixed →
      (fix_broken_json envB (fix_broken_json envA fs).fs).outcome ≠
        FixerOutcome.notNeeded) := by
  refine ⟨(fixer_frame envA fs).1, (fixer_frame envA fs).2, ?_⟩
  intro hfixed
  cases hmt : fs.moviesTemp with
  | none =>
      rw [fix_broken_json_notNeeded envA fs hmt] at hfixed
      exact absurd hfixed (by simp)
  | some t =>
      have : (fix_broken_json envA fs).fs.moviesTemp = some t :=
        (fixer_frame envA fs).1.trans hmt
      exact fix_activates envB _ this

/-- C10 witness: a successful repair leaves the trigger file in place and
a second invocation activates again. -/
theorem claim_C10_witness :
    (fix_broken_json ⟨true, fun _ => .text "[]"⟩
        ⟨none, some "broken", some "<html>"⟩).fs.moviesTemp = some "broken" ∧
    (fix_broken_json ⟨true, fun _ => .text "[]"⟩
        ⟨none, some "broken", some "<html>"⟩).fs.sourcePage = some "<html>" ∧
    (fix_broken_json ⟨true, fun _ => .err⟩
        (fix_broken_json ⟨true, fun _ => .text "[]"⟩
          ⟨none, some "broken", some "<html>"⟩).fs).outcome ≠
      FixerOutcome.notNeeded :=
  ⟨(claim_C10_fixer_leaves_trigger ⟨true, fun _ => .text "[]"⟩ ⟨true, fun _ => .err⟩
      ⟨none, some "broken", some "<html>"⟩).1,
   (claim_C10_fixer_leaves_trigger ⟨true, fun _ => .text "[]"⟩ ⟨true, fun _ => .err⟩
      ⟨none, some "broken", some "<html>"⟩).2.1,
   (claim_C10_fixer_leaves_trigger ⟨true, fun _ => .text "[]"⟩ ⟨true, fun _ => .err⟩
      ⟨none, some "broken", some "<html>"⟩).2.2 (by decide)⟩
